import Mathlib

/-! # Out-of-core SVO builder: the two drivers

A shallow embedding of the two `main.cpp` drivers of the repository

* `src/ooc_svo_builder/svo_builder_cuda/main.cpp` (the CPU/TBB driver), and
* `src/svo_builder/svo_builder_cuda/main.cpp` (the CUDA driver),

together with `voxelizer.h`.  Machine integers are natural numbers or integers
with explicit reduction modulo `2^32` / `2^64`.  Calls into collaborators whose
code is not part of the drivers (the voxelizer kernels, the partitioner, the
header readers, `atoi`, `isPowerOf2`) are parameters of the model.  What the
drivers do to the outside world is recorded as a list of `Event`s.
-/

namespace SvoBuilder

/-! ## Machine integers -/

/-- Reduction of a natural number to a 64-bit unsigned value (`size_t`, `mort_t`). -/
def wrap64 (n : Nat) : Nat := n % 2 ^ 64

/-- Reduction of a natural number to a 32-bit unsigned value (`unsigned int`, `uint`). -/
def wrap32 (n : Nat) : Nat := n % 2 ^ 32

/-- Conversion of a signed integer to `size_t` (modulo `2^64`). -/
def toSizeT (i : Int) : Nat := (i % 2 ^ 64).toNat

/-- Conversion of a signed integer to `unsigned int` (modulo `2^32`). -/
def toUInt (i : Int) : Nat := (i % 2 ^ 32).toNat

/-- Conversion of an unsigned value to a 32-bit `int` (two's complement). -/
def toInt32 (n : Nat) : Int :=
  if n % 2 ^ 32 < 2 ^ 31 then ((n % 2 ^ 32 : Nat) : Int) else ((n % 2 ^ 32 : Nat) : Int) - 2 ^ 32

/-- The statement `i++` on a 32-bit `int` counter, wrapping in two's complement. -/
def intIncr (i : Int) : Int := if i + 1 < 2 ^ 31 then i + 1 else i + 1 - 2 ^ 32

/-! ## `voxelizer.h` -/

/-- The `#define EMPTY_VOXEL 0` of `voxelizer.h`. -/
def EMPTY_VOXEL : Nat := 0
/-- The `#define FULL_VOXEL 1` of `voxelizer.h`. -/
def FULL_VOXEL : Nat := 1
/-- The `#define WORKING_VOXEL 2` of `voxelizer.h`. -/
def WORKING_VOXEL : Nat := 2

/-! ## Partition ranges (`main`, both drivers) -/

/-- The driver's
`mort_t morton_part = (gridsize * gridsize * gridsize) / n_partitions;`
computed on 64-bit unsigned values. -/
def mortonPart (gridsize n_partitions : Nat) : Nat :=
  wrap64 (wrap64 (gridsize * gridsize) * gridsize) / n_partitions

/-- The driver's `mort_t start = i * morton_part;`. -/
def partStart (morton_part i : Nat) : Nat := wrap64 (i * morton_part)

/-- The driver's `mort_t end = (i + 1) * morton_part;`. -/
def partEnd (morton_part i : Nat) : Nat := wrap64 (wrap64 (i + 1) * morton_part)

/-- Code `c` lies in the half-open Morton range `[start, end)` of partition `i`. -/
def inPart (morton_part i c : Nat) : Prop :=
  partStart morton_part i ≤ c ∧ c < partEnd morton_part i

instance (morton_part i c : Nat) : Decidable (inPart morton_part i c) :=
  inferInstanceAs (Decidable (partStart morton_part i ≤ c ∧ c < partEnd morton_part i))

/-- The ranges assigned to the partitions `0 .. n_partitions - 1` tile `[0, gridsize^3)`:
they are pairwise disjoint, their union is `[0, gridsize^3)`, and each of them
holds `gridsize^3 / n_partitions` codes. -/
def PartitionTiling (gridsize n_partitions : Nat) : Prop :=
  (∀ i j c, i < n_partitions → j < n_partitions → i ≠ j →
      ¬ (inPart (mortonPart gridsize n_partitions) i c ∧
         inPart (mortonPart gridsize n_partitions) j c)) ∧
  (∀ c, (∃ i, i < n_partitions ∧ inPart (mortonPart gridsize n_partitions) i c) ↔
      c < gridsize ^ 3) ∧
  (∀ i, i < n_partitions →
      partEnd (mortonPart gridsize n_partitions) i -
        partStart (mortonPart gridsize n_partitions) i = gridsize ^ 3 / n_partitions)


/-! ## Events and outcomes -/

/-- The calls of a driver that the claims speak about, in the order they are issued. -/
inductive Event where
  /-- `readTriHeader(filename, tri_info)` is entered. -/
  | readTriHeader
  /-- `estimate_partitions(gridsize, voxel_memory_limit)`. -/
  | estimatePartitions
  /-- `partition(tri_info, n_partitions, gridsize, ...)`. -/
  | partition
  /-- `readTripHeader(tripheader, trip_info)` is entered. -/
  | readTripHeader
  /-- CUDA driver, first pass: `voxelize_schwarz_count(..., i)`. -/
  | voxelizeCount (i : Nat)
  /-- CPU driver: `voxelize_schwarz_method(reader, start, end, ...)` for partition `i`. -/
  | voxelize (i : Nat)
  /-- CUDA driver, second pass:
  `voxelize_schwarz_method(..., i, prev_idx, nfilled[i] - prev_idx)`. -/
  | voxelizeFill (i : Nat) (prev_idx : Int) (len : Nat)
  /-- `builder.addVoxel(code)`. -/
  | addVoxel (code : Nat)
  /-- `builder.finalizeTree()`. -/
  | finalizeTree
  /-- `removeTripFiles(trip_info)`. -/
  | removeTripFiles
  deriving DecidableEq, Repr

/-- How a piece of driver code ends. -/
inductive Outcome where
  /-- Control reaches the end of the function. -/
  | finished
  /-- The process is ended by `exit(status)`. -/
  | exited (status : Int)
  /-- The code leaves defined behaviour: a null pointer is read as a string, an index
  outside a buffer is read, or an integer is divided by zero. -/
  | undefinedBehaviour
  deriving DecidableEq, Repr

/-- The exit status the parent process sees after `exit(status)`: the low eight bits. -/
def exitStatus (status : Int) : Nat := (status % 256).toNat

/-- The arguments of the `addVoxel` calls of a trace, in order. -/
def addVoxelArgs : List Event → List Nat
  | [] => []
  | Event.addVoxel c :: es => c :: addVoxelArgs es
  | _ :: es => addVoxelArgs es

/-! ## `parseProgramParameters` (both drivers, identical text) -/

/-- The program parameters, the global variables of `main.cpp` with their initial values. -/
structure Params where
  /-- `string filename = "";` -/
  filename : String := ""
  /-- `size_t gridsize = 1024;` -/
  gridsize : Nat := 1024
  /-- `size_t voxel_memory_limit = 2048;` -/
  voxel_memory_limit : Nat := 2048
  /-- `float sparseness_limit = 0.10f;`, held in hundredths: the `float` is this number
  divided by 100. -/
  sparseness_limit : Int := 10
  /-- `bool generate_levels = false;` -/
  generate_levels : Bool := false
  /-- `bool verbose = false;` -/
  verbose : Bool := false
  deriving DecidableEq, Repr

/-- How `parseProgramParameters` ends. -/
inductive ParseOutcome where
  /-- The function returns, the globals holding `p`. -/
  | ok (p : Params)
  /-- The function ends the process with `exit(status)`. -/
  | exit (status : Int)
  /-- The function reads `argv[argc]`, a null pointer, as the value of an option. -/
  | nullArgument
  deriving DecidableEq, Repr

/-- Search of `pat` in the character list `s`, the first match being at index `i` or
later; `none` stands for `string::npos`. -/
def findFrom (pat : List Char) : List Char → Nat → Option Nat
  | [], i => if pat.isPrefixOf [] then some i else none
  | c :: cs, i => if pat.isPrefixOf (c :: cs) then some i else findFrom pat cs (i + 1)

/-- The call `s.find(pat)` of `std::string`: index of the first occurrence of `pat` in
`s`, or `none` for `string::npos`. -/
def find (s pat : String) : Option Nat := findFrom pat.toList s.toList 0

/-- The loop `for (int i = 1; i < argc; i++)` of `parseProgramParameters`, run on the
arguments `argv[i], ..., argv[argc - 1]` that are still to be read, the globals holding
`p`.  An option that takes a value reads `argv[i + 1]` and then skips it with `i++`; when
no argument is left, `argv[i + 1]` is the terminating null pointer of `argv`.
`atoi` is the C library function and `isPowerOf2` the helper of the tool library.
For `-d`, `sparseness_limit = percent / 100.0f` is negative exactly when the `int`
`percent` is. -/
def parseLoop (atoi : String → Int) (isPowerOf2 : Nat → Bool) :
    List String → Params → ParseOutcome
  | [], p => ParseOutcome.ok p
  | arg :: rest, p =>
    if arg = "-f" then
      match rest with
      | [] => ParseOutcome.nullArgument
      | v :: rest2 =>
        if find v ".tri" = none then ParseOutcome.exit 0
        else parseLoop atoi isPowerOf2 rest2 { p with filename := v }
    else if arg = "-s" then
      match rest with
      | [] => ParseOutcome.nullArgument
      | v :: rest2 =>
        if isPowerOf2 (wrap32 (toSizeT (atoi v))) = false then ParseOutcome.exit 0
        else parseLoop atoi isPowerOf2 rest2 { p with gridsize := toSizeT (atoi v) }
    else if arg = "-l" then
      match rest with
      | [] => ParseOutcome.nullArgument
      | v :: rest2 =>
        if toSizeT (atoi v) ≤ 1 then ParseOutcome.exit 0
        else parseLoop atoi isPowerOf2 rest2 { p with voxel_memory_limit := toSizeT (atoi v) }
    else if arg = "-d" then
      match rest with
      | [] => ParseOutcome.nullArgument
      | v :: rest2 =>
        if atoi v < 0 then ParseOutcome.exit 0
        else parseLoop atoi isPowerOf2 rest2 { p with sparseness_limit := atoi v }
    else if arg = "-v" then
      parseLoop atoi isPowerOf2 rest { p with verbose := true }
    else if arg = "-levels" then
      parseLoop atoi isPowerOf2 rest { p with generate_levels := true }
    else if arg = "-c" then
      match rest with
      | [] => ParseOutcome.nullArgument
      | _ :: rest2 => parseLoop atoi isPowerOf2 rest2 p
    else if arg = "-h" then ParseOutcome.exit 0
    else ParseOutcome.exit 0

/-- The function `parseProgramParameters(argc, argv)`, with `argc = argv.length`. -/
def parseProgramParameters (atoi : String → Int) (isPowerOf2 : Nat → Bool)
    (argv : List String) : ParseOutcome :=
  if argv.length < 3 then ParseOutcome.exit 0
  else parseLoop atoi isPowerOf2 (argv.drop 1) {}

/-- Decimal digits at the head of a character list, read as a number. -/
def atoiDigits : List Char → Nat → Nat
  | [], acc => acc
  | c :: cs, acc => if c.isDigit then atoiDigits cs (acc * 10 + (c.toNat - 48)) else acc

/-- An instance of the C library `atoi` for numerals with an optional sign, the result
converted to a 32-bit `int`. -/
def atoiDecimal (s : String) : Int :=
  match s.toList with
  | '-' :: cs => toInt32 (2 ^ 32 - atoiDigits cs 0 % 2 ^ 32)
  | '+' :: cs => toInt32 (atoiDigits cs 0)
  | cs => toInt32 (atoiDigits cs 0)

/-- Modelled from the spec: the helper `isPowerOf2` is declared outside the driver
sources; the spec asks for a grid size that is a power of two, and this instance decides
exactly that for a 32-bit unsigned value. -/
def isPowerOf2 (x : Nat) : Bool := (List.range 32).any (fun k => x == 2 ^ k)

/-! ## The collaborators of the drivers -/

/-- The fields of `TripInfo` the drivers read after `readTripHeader`. -/
structure TripInfo where
  /-- `trip_info.gridsize` -/
  gridsize : Nat
  /-- `trip_info.n_partitions` -/
  n_partitions : Nat
  /-- `trip_info.part_tricounts[i]` -/
  part_tricounts : Nat → Nat

/-- What `voxelize_schwarz_method` of the CPU driver leaves behind for one partition. -/
structure VoxelizerResult where
  /-- The flag `use_data` after the call. -/
  use_data : Bool
  /-- The contents of the vector `data` after the call. -/
  data : List Nat
  /-- The contents of the array `voxels` (of `morton_part` cells) after the call. -/
  voxels : Nat → Nat

/-- What the CUDA voxelizer leaves behind after both passes. -/
structure CudaResult where
  /-- The flag `use_data` when `runSVO` is called. -/
  use_data : Bool
  /-- The vector `nfilled` filled by `voxelize_count_finalize`. -/
  nfilled : Nat → Nat
  /-- The value returned by `voxelize_finalize`, stored in `tot_nfilled`. -/
  tot_nfilled : Nat
  /-- The contents of the host buffer `data` after `cudaMemcpy`. -/
  data : List Nat

/-- Everything outside the drivers that a run depends on. -/
structure World where
  /-- The C library function `atoi`. -/
  atoi : String → Int
  /-- The helper `isPowerOf2` of the tool library. -/
  isPowerOf2 : Nat → Bool
  /-- `parseTriHeader(filename, tri_info) == 1`. -/
  triHeaderParsed : Bool
  /-- `tri_info.filesExist()`. -/
  triFilesExist : Bool
  /-- `tri_info.geometry_only`. -/
  geometry_only : Bool
  /-- The function `estimate_partitions(gridsize, memory_limit)`. -/
  estimate_partitions : Nat → Nat → Nat
  /-- The header produced by `partition(tri_info, n_partitions, gridsize)` and reloaded
  by `readTripHeader`. -/
  partition : Nat → Nat → TripInfo
  /-- `parseTripHeader(filename, trip_info) == 1`. -/
  tripHeaderParsed : Bool
  /-- `trip_info.filesExist()`. -/
  tripFilesExist : Bool
  /-- The CPU voxelizer, per partition index. -/
  voxelizer : Nat → VoxelizerResult
  /-- The CUDA voxelizer. -/
  cuda : CudaResult

/-- The library routine `tbb::parallel_sort(data.begin(), data.end())`: the vector
sorted in non-decreasing order. -/
def parallel_sort (data : List Nat) : List Nat := data.insertionSort (fun a b => a ≤ b)

/-! ## Feeding the octree builder -/

/-- The loop
`for (int i = 0; i < size; i++) { builder.addVoxel(data[i]); }`
of both drivers.  `conv` is the conversion applied to the `int` counter by the
comparison (`size_t` in the CPU driver, `uint` in `runSVO`), `rest` is the part of the
buffer from index `i` on, as long as the counter has not wrapped.  A counter that has
wrapped is negative, and `data[i]` then lies before the buffer; an index at or past the
end of the buffer is outside it as well.  The result is the list of codes passed to
`addVoxel` and the way the loop ends. -/
def addVoxelLoop (conv : Int → Nat) (size : Nat) : List Nat → Int → List Nat × Outcome
  | [], i =>
    if conv i < size then ([], Outcome.undefinedBehaviour) else ([], Outcome.finished)
  | code :: rest, i =>
    if conv i < size then
      if i < 0 then ([], Outcome.undefinedBehaviour)
      else (code :: (addVoxelLoop conv size rest (intIncr i)).1,
            (addVoxelLoop conv size rest (intIncr i)).2)
    else ([], Outcome.finished)

/-- The C expression `!v` on a cell value. -/
def lnot (v : Nat) : Nat := if v = 0 then 1 else 0

/-- The dense branch of the CPU driver:
`for (size_t j = 0; j < morton_part; j++) if (!voxels[j] == EMPTY_VOXEL) builder.addVoxel(start + j);`
The result is the list of codes passed to `addVoxel`. -/
def denseFeed (start morton_part : Nat) (voxels : Nat → Nat) : List Nat :=
  (List.range morton_part).filterMap
    (fun j => if lnot (voxels j) = EMPTY_VOXEL then some (wrap64 (start + j)) else none)

/-- The sparse branch of the CPU driver: `tbb::parallel_sort` followed by the
`addVoxel` loop, whose counter is compared with `data.size()`. -/
def sparseFeed (data : List Nat) : List Nat × Outcome :=
  addVoxelLoop toSizeT data.length (parallel_sort data) 0

/-- The "build SVO" part of one iteration of the CPU driver's partition loop
(`if (use_data) ... else ...`): the codes passed to `addVoxel` for partition `i`. -/
def buildSVO (morton_part i : Nat) (r : VoxelizerResult) : List Nat × Outcome :=
  if r.use_data then sparseFeed r.data
  else (denseFeed (partStart morton_part i) morton_part r.voxels, Outcome.finished)

/-- The function `runSVO(builder, idx, use_data, data, data_size)` of the CUDA driver;
`data_size` is the `uint` parameter. -/
def runSVO (use_data : Bool) (data : List Nat) (data_size : Nat) : List Event × Outcome :=
  if use_data then
    ((addVoxelLoop toUInt data_size data 0).1.map Event.addVoxel,
     (addVoxelLoop toUInt data_size data 0).2)
  else ([], Outcome.exited (-1))

/-! ## The CPU driver -/

namespace Cpu

/-- The partition loop `for (size_t i = 0; i < trip_info.n_partitions; i++)` of the CPU
driver, run on the indices `is` that are still to come. -/
def partitionLoop (t : TripInfo) (morton_part : Nat) (vox : Nat → VoxelizerResult) :
    List Nat → List Event × Outcome
  | [] => ([], Outcome.finished)
  | i :: is =>
    if t.part_tricounts i = 0 then partitionLoop t morton_part vox is
    else
      match (buildSVO morton_part i (vox i)).2 with
      | Outcome.finished =>
        (Event.voxelize i :: (buildSVO morton_part i (vox i)).1.map Event.addVoxel
            ++ (partitionLoop t morton_part vox is).1,
         (partitionLoop t morton_part vox is).2)
      | o => (Event.voxelize i :: (buildSVO morton_part i (vox i)).1.map Event.addVoxel, o)

/-- The CPU driver from the computation of `morton_part` to the end of `main`. -/
def build (t : TripInfo) (vox : Nat → VoxelizerResult) : List Event × Outcome :=
  if t.n_partitions = 0 then ([], Outcome.undefinedBehaviour)
  else
    match (partitionLoop t (mortonPart t.gridsize t.n_partitions) vox
        (List.range t.n_partitions)).2 with
    | Outcome.finished =>
      ((partitionLoop t (mortonPart t.gridsize t.n_partitions) vox
          (List.range t.n_partitions)).1 ++ [Event.finalizeTree, Event.removeTripFiles],
       Outcome.finished)
    | o => ((partitionLoop t (mortonPart t.gridsize t.n_partitions) vox
          (List.range t.n_partitions)).1, o)

end Cpu

/-! ## The CUDA driver -/

namespace Cuda

/-- The first partition loop of the CUDA driver (the counting pass). -/
def countLoop (t : TripInfo) : List Nat → List Event
  | [] => []
  | i :: is =>
    if t.part_tricounts i = 0 then countLoop t is
    else Event.voxelizeCount i :: countLoop t is

/-- The second partition loop of the CUDA driver (the fill pass); `prev_idx` is the
`int` variable of that name, `nfilled[i]` a `uint`. -/
def fillLoop (t : TripInfo) (nfilled : Nat → Nat) : List Nat → Int → List Event
  | [], _ => []
  | i :: is, prev_idx =>
    if t.part_tricounts i = 0 then fillLoop t nfilled is prev_idx
    else
      Event.voxelizeFill i prev_idx (wrap32 (wrap32 (nfilled i) + 2 ^ 32 - toUInt prev_idx))
        :: fillLoop t nfilled is (toInt32 (nfilled i))

/-- The CUDA driver from the computation of `morton_part` to the end of `main`. -/
def build (t : TripInfo) (c : CudaResult) : List Event × Outcome :=
  if t.n_partitions = 0 then ([], Outcome.undefinedBehaviour)
  else
    match (runSVO c.use_data c.data (wrap32 c.tot_nfilled)).2 with
    | Outcome.finished =>
      (countLoop t (List.range t.n_partitions)
          ++ fillLoop t c.nfilled (List.range t.n_partitions) 0
          ++ (runSVO c.use_data c.data (wrap32 c.tot_nfilled)).1
          ++ [Event.finalizeTree, Event.removeTripFiles],
       Outcome.finished)
    | o =>
      (countLoop t (List.range t.n_partitions)
          ++ fillLoop t c.nfilled (List.range t.n_partitions) 0
          ++ (runSVO c.use_data c.data (wrap32 c.tot_nfilled)).1, o)

end Cuda

/-! ## `main` -/

/-- The function `readTriHeader`: `true` when it returns, `false` when it ends the
process with `exit(0)`. -/
def readTriHeader (w : World) : Bool :=
  w.triHeaderParsed && w.triFilesExist && w.geometry_only

/-- The function `readTripHeader`: `true` when it returns, `false` when it ends the
process with `exit(0)`. -/
def readTripHeader (w : World) : Bool :=
  w.tripHeaderParsed && w.tripFilesExist

/-- The function `main` of a driver, `build` being the part of it that follows
`readTripHeader`. -/
def runMain (build : World → TripInfo → List Event × Outcome) (w : World)
    (argv : List String) : List Event × Outcome :=
  match parseProgramParameters w.atoi w.isPowerOf2 argv with
  | ParseOutcome.exit status => ([], Outcome.exited status)
  | ParseOutcome.nullArgument => ([], Outcome.undefinedBehaviour)
  | ParseOutcome.ok p =>
    if readTriHeader w = false then ([Event.readTriHeader], Outcome.exited 0)
    else if readTripHeader w = false then
      ([Event.readTriHeader, Event.estimatePartitions, Event.partition,
        Event.readTripHeader], Outcome.exited 0)
    else
      ([Event.readTriHeader, Event.estimatePartitions, Event.partition,
        Event.readTripHeader]
        ++ (build w (w.partition (w.estimate_partitions p.gridsize p.voxel_memory_limit)
              p.gridsize)).1,
       (build w (w.partition (w.estimate_partitions p.gridsize p.voxel_memory_limit)
              p.gridsize)).2)

/-- The function `main` of the CPU driver. -/
def Cpu.main (w : World) (argv : List String) : List Event × Outcome :=
  runMain (fun w t => Cpu.build t w.voxelizer) w argv

/-- The function `main` of the CUDA driver. -/
def Cuda.main (w : World) (argv : List String) : List Event × Outcome :=
  runMain (fun w t => Cuda.build t w.cuda) w argv

/-! ## Properties of traces -/

/-- The event is a call of the voxelizer (`voxelize_schwarz_count` or
`voxelize_schwarz_method`). -/
def Event.isVoxelization : Event → Bool
  | Event.voxelizeCount _ => true
  | Event.voxelize _ => true
  | Event.voxelizeFill _ _ _ => true
  | _ => false

/-- The event is a call `builder.addVoxel(code)`. -/
def Event.isAddVoxel : Event → Bool
  | Event.addVoxel _ => true
  | _ => false

/-- The trace calls `finalizeTree` exactly once, every `addVoxel` call comes before that
call, and `removeTripFiles` is not called before it. -/
def FinalizeProtocol (trace : List Event) : Prop :=
  ∃ before after, trace = before ++ Event.finalizeTree :: after ∧
    Event.finalizeTree ∉ before ∧ Event.finalizeTree ∉ after ∧
    Event.removeTripFiles ∉ before ∧ ∀ e ∈ after, e.isAddVoxel = false

/-- Once the fill-pass voxelization of a partition `k` has started, no code of an
earlier partition `i < k` is passed to `addVoxel` any more: the builder has consumed all
codes of partition `i` before partition `k` is voxelized. -/
def ConsumedBeforeNext (morton_part : Nat) (trace : List Event) : Prop :=
  ∀ before after k prev_idx len,
    trace = before ++ Event.voxelizeFill k prev_idx len :: after →
    ∀ c ∈ addVoxelArgs after, ∀ i, i < k → ¬ inPart morton_part i c

/-- The event is one of the two calls that end a run: `finalizeTree` or
`removeTripFiles`. -/
def Event.isTeardown : Event → Bool
  | Event.finalizeTree => true
  | Event.removeTripFiles => true
  | _ => false

/-! ## The two drivers side by side -/

/-- The two drivers of the repository. -/
inductive Driver where
  /-- `src/ooc_svo_builder/svo_builder_cuda/main.cpp` -/
  | cpu
  /-- `src/svo_builder/svo_builder_cuda/main.cpp` -/
  | cuda
  deriving DecidableEq, Repr

/-- The function `main` of the given driver. -/
def main (d : Driver) (w : World) (argv : List String) : List Event × Outcome :=
  match d with
  | Driver.cpu => Cpu.main w argv
  | Driver.cuda => Cuda.main w argv

/-! ## Sample inputs -/

/-- A header of a `2^3` grid in two partitions of four codes, each with one triangle. -/
def sampleTrip : TripInfo := ⟨2, 2, fun _ => 1⟩

/-- A CPU voxelizer that leaves the sparse list `[3, 1, 1]` for partition 0 and falls back
to the dense array for partition 1, with cell 1 `FULL` and cell 2 `WORKING`. -/
def sampleVoxelizer (i : Nat) : VoxelizerResult :=
  if i = 0 then ⟨true, [3, 1, 1], fun _ => EMPTY_VOXEL⟩ else ⟨false, [], fun j => j % 3⟩

/-- A CUDA voxelizer that fills code 3 for partition 0 and code 5 for partition 1. -/
def sampleCuda : CudaResult := ⟨true, fun i => i + 1, 2, [3, 5]⟩

/-- A world in which every header is readable and the mesh is split in two partitions. -/
def sampleWorld : World :=
  ⟨atoiDecimal, isPowerOf2, true, true, true, fun _ _ => 2,
    fun n g => ⟨g, n, fun _ => 1⟩, true, true, sampleVoxelizer, sampleCuda⟩

/-! ## The slices of the fill pass -/

/-- The `(offset, length)` pairs `(prev_idx, nfilled[i] - prev_idx)` handed to
`voxelize_schwarz_method` by the fill pass of the CUDA driver, in call order. -/
def fillSlices : List Event → List (Int × Nat)
  | [] => []
  | Event.voxelizeFill _ prev_idx len :: es => (prev_idx, len) :: fillSlices es
  | _ :: es => fillSlices es

/-- The slices follow one another without gap or overlap: the first one starts at
`first`, each further one starts where its predecessor ends, and the last one ends at
`last`. -/
def ConsecutiveSlices (first : Int) : List (Int × Nat) → Int → Prop
  | [], last => first = last
  | (offset, len) :: rest, last =>
    offset = first ∧ ConsecutiveSlices (offset + (len : Int)) rest last

/-- The entry `nfilled[i]` of the last partition `i` among `is` that has triangles, or
`last` when there is none. -/
def lastCount (t : TripInfo) (nfilled : Nat → Nat) : List Nat → Nat → Nat
  | [], last => last
  | i :: is, last =>
    if t.part_tricounts i = 0 then lastCount t nfilled is last
    else lastCount t nfilled is (nfilled i)

/-! ## Theorems -/

theorem mortonPart_of_fit (gridsize n : Nat) (hfit : gridsize ^ 3 < 2 ^ 64) :
    mortonPart gridsize n = gridsize ^ 3 / n := by
  have h3 : gridsize ^ 3 = gridsize * gridsize * gridsize := by ring
  have h2 : gridsize * gridsize < 2 ^ 64 := by
    rcases Nat.eq_zero_or_pos gridsize with h0 | hpos
    · subst h0; norm_num
    · calc gridsize * gridsize = gridsize * gridsize * 1 := by ring
        _ ≤ gridsize * gridsize * gridsize := Nat.mul_le_mul_left _ hpos
        _ < 2 ^ 64 := by rw [← h3]; exact hfit
  unfold mortonPart wrap64
  rw [Nat.mod_eq_of_lt h2, ← h3, Nat.mod_eq_of_lt hfit]

theorem mul_mortonPart_le (G n i : Nat) (hi : i ≤ n) : i * (G / n) ≤ G :=
  le_trans (Nat.mul_le_mul_right _ hi) (Nat.mul_div_le G n)

theorem partStart_eq (gridsize n i : Nat) (hi : i < n) :
    partStart (mortonPart gridsize n) i = i * mortonPart gridsize n := by
  unfold partStart wrap64
  apply Nat.mod_eq_of_lt
  have hG : wrap64 (wrap64 (gridsize * gridsize) * gridsize) < 2 ^ 64 :=
    Nat.mod_lt _ (by norm_num)
  exact lt_of_le_of_lt (mul_mortonPart_le _ n i hi.le) hG

theorem partEnd_eq (gridsize n i : Nat) (hi : i < n) :
    partEnd (mortonPart gridsize n) i = (i + 1) * mortonPart gridsize n := by
  have hG : wrap64 (wrap64 (gridsize * gridsize) * gridsize) < 2 ^ 64 :=
    Nat.mod_lt _ (by norm_num)
  have hle : (i + 1) * mortonPart gridsize n ≤
      wrap64 (wrap64 (gridsize * gridsize) * gridsize) :=
    mul_mortonPart_le _ n (i + 1) hi
  rcases Nat.eq_zero_or_pos (mortonPart gridsize n) with h0 | hpos
  · unfold partEnd wrap64; rw [h0]; simp
  · have hi1 : i + 1 < 2 ^ 64 := by
      have : (i + 1) * 1 ≤ (i + 1) * mortonPart gridsize n := Nat.mul_le_mul_left _ hpos
      omega
    unfold partEnd wrap64
    rw [Nat.mod_eq_of_lt hi1]
    exact Nat.mod_eq_of_lt (lt_of_le_of_lt hle hG)

/-- C1 (counterexample): at the power-of-two grid size `2^22` with a single partition,
which divides `gridsize^3`, the 64-bit product `gridsize * gridsize * gridsize` wraps
to `0`, the driver's `morton_part` is `0`, and the only range `[0, 0)` is empty: the
ranges do not tile `[0, gridsize^3)`. -/
theorem partition_tiling_fails_at_wraparound :
    (∃ k, (2 : Nat) ^ 22 = 2 ^ k) ∧ 1 ≤ 1 ∧ 1 ∣ ((2 : Nat) ^ 22) ^ 3 ∧
      mortonPart (2 ^ 22) 1 = 0 ∧ ¬ PartitionTiling (2 ^ 22) 1 := by
  have hmp : mortonPart (2 ^ 22) 1 = 0 := by
    unfold mortonPart wrap64; norm_num
  refine ⟨⟨22, rfl⟩, le_refl 1, one_dvd _, hmp, ?_⟩
  intro h
  have h3 := h.2.2 0 (by norm_num)
  rw [hmp] at h3
  unfold partEnd partStart wrap64 at h3
  norm_num at h3

/-- C1 (amended): for every grid size whose cube fits in 64 bits (every power of two up
to `2^21`) and every `n_partitions >= 1` dividing `gridsize^3`, the ranges
`[i * morton_part, (i + 1) * morton_part)` the driver assigns are pairwise disjoint,
cover exactly `[0, gridsize^3)`, and each holds `gridsize^3 / n_partitions` codes. -/
theorem partition_tiling (gridsize n_partitions : Nat) (hfit : gridsize ^ 3 < 2 ^ 64)
    (_hn : 1 ≤ n_partitions) (hdiv : n_partitions ∣ gridsize ^ 3) :
    PartitionTiling gridsize n_partitions := by
  have hmp : mortonPart gridsize n_partitions = gridsize ^ 3 / n_partitions :=
    mortonPart_of_fit gridsize n_partitions hfit
  have hmul : n_partitions * (gridsize ^ 3 / n_partitions) = gridsize ^ 3 :=
    Nat.mul_div_cancel' hdiv
  have key : ∀ i j c, i < n_partitions → j < n_partitions → i < j →
      ¬ (inPart (mortonPart gridsize n_partitions) i c ∧
         inPart (mortonPart gridsize n_partitions) j c) := by
    intro i j c hi hj hij h
    have h1 := h.1.2
    have h2 := h.2.1
    rw [partEnd_eq gridsize n_partitions i hi] at h1
    rw [partStart_eq gridsize n_partitions j hj] at h2
    have : (i + 1) * mortonPart gridsize n_partitions ≤ j * mortonPart gridsize n_partitions :=
      Nat.mul_le_mul_right _ hij
    omega
  refine ⟨?_, ?_, ?_⟩
  · intro i j c hi hj hij
    rcases Nat.lt_or_gt_of_ne hij with h | h
    · exact key i j c hi hj h
    · intro hc; exact key j i c hj hi h ⟨hc.2, hc.1⟩
  · intro c
    constructor
    · rintro ⟨i, hi, -, hc⟩
      rw [partEnd_eq gridsize n_partitions i hi, hmp] at hc
      exact lt_of_lt_of_le hc (mul_mortonPart_le _ n_partitions (i + 1) hi)
    · intro hc
      have hpos : 0 < gridsize ^ 3 / n_partitions := by
        rcases Nat.eq_zero_or_pos (gridsize ^ 3 / n_partitions) with h0 | h
        · rw [h0] at hmul; omega
        · exact h
      have hi : c / (gridsize ^ 3 / n_partitions) < n_partitions := by
        rw [Nat.div_lt_iff_lt_mul hpos, hmul]; exact hc
      refine ⟨c / (gridsize ^ 3 / n_partitions), hi, ?_, ?_⟩
      · rw [partStart_eq gridsize n_partitions _ hi, hmp]
        exact Nat.div_mul_le_self c _
      · rw [partEnd_eq gridsize n_partitions _ hi, hmp]
        rw [Nat.mul_comm]
        exact Nat.lt_mul_div_succ c hpos
  · intro i hi
    rw [partEnd_eq gridsize n_partitions i hi, partStart_eq gridsize n_partitions i hi, hmp]
    rw [Nat.add_mul, Nat.one_mul, Nat.add_sub_cancel_left]

/-- C1 (witness): the amended tiling statement at grid size 8 with 8 partitions. -/
theorem partition_tiling_witness :
    (8 : Nat) ^ 3 < 2 ^ 64 ∧ 1 ≤ 8 ∧ 8 ∣ (8 : Nat) ^ 3 ∧ PartitionTiling 8 8 :=
  ⟨by norm_num, by norm_num, by norm_num,
    partition_tiling 8 8 (by norm_num) (by norm_num) (by norm_num)⟩

/-! ### The `addVoxel` loop -/

theorem toSizeT_natCast (k : Nat) (h : k < 2 ^ 64) : toSizeT (k : Int) = k := by
  unfold toSizeT; omega

theorem toUInt_natCast (k : Nat) (h : k < 2 ^ 32) : toUInt (k : Int) = k := by
  unfold toUInt; omega

theorem intIncr_natCast (k : Nat) (h : k + 1 < 2 ^ 31) :
    intIncr (k : Int) = ((k + 1 : Nat) : Int) := by
  unfold intIncr; split <;> omega

/-- The codes the loop passes on are an initial segment of the buffer. -/
theorem addVoxelLoop_initial_segment (conv : Int → Nat) (size : Nat) (rest : List Nat) :
    ∀ i : Int, (addVoxelLoop conv size rest i).1 <+: rest := by
  induction rest with
  | nil => intro i; unfold addVoxelLoop; split <;> simp
  | cons code rest ih =>
    intro i
    unfold addVoxelLoop
    split
    · split
      · simp
      · simpa using ih (intIncr i)
    · simp

/-- With fewer than `2^31` entries the counter never wraps, and the loop passes the
whole buffer on and ends normally. -/
theorem addVoxelLoop_all (conv : Int → Nat) (hconv : ∀ k : Nat, k < 2 ^ 31 → conv (k : Int) = k)
    (rest : List Nat) :
    ∀ k : Nat, k + rest.length < 2 ^ 31 →
      addVoxelLoop conv (k + rest.length) rest (k : Int) = (rest, Outcome.finished) := by
  induction rest with
  | nil =>
    intro k hk
    unfold addVoxelLoop
    rw [hconv k (by simpa using hk)]
    simp
  | cons code rest ih =>
    intro k hk
    have hlen : (code :: rest).length = rest.length + 1 := rfl
    have hk1 : k + 1 + rest.length < 2 ^ 31 := by rw [hlen] at hk; omega
    have hsz : k + (code :: rest).length = k + 1 + rest.length := by rw [hlen]; omega
    unfold addVoxelLoop
    rw [hconv k (by omega), hsz, intIncr_natCast k (by omega), ih (k + 1) hk1]
    have h1 : k < k + 1 + rest.length := by omega
    have h2 : ¬ ((k : Int) < 0) := by omega
    simp [h1, h2]

theorem parallel_sort_sorted (data : List Nat) :
    List.Sorted (fun a b => a ≤ b) (parallel_sort data) :=
  List.sorted_insertionSort (fun a b : Nat => a ≤ b) data

theorem parallel_sort_perm (data : List Nat) : (parallel_sort data).Perm data :=
  List.perm_insertionSort (fun a b : Nat => a ≤ b) data

theorem sparseFeed_of_small (data : List Nat) (h : data.length < 2 ^ 31) :
    sparseFeed data = (parallel_sort data, Outcome.finished) := by
  have hlen : (parallel_sort data).length = data.length := (parallel_sort_perm data).length_eq
  have := addVoxelLoop_all toSizeT (fun k hk => toSizeT_natCast k (by omega))
    (parallel_sort data) 0 (by rw [hlen]; omega)
  unfold sparseFeed
  rw [hlen] at this
  simpa using this

theorem sparseFeed_sorted (data : List Nat) :
    List.Sorted (fun a b => a ≤ b) (sparseFeed data).1 :=
  List.Pairwise.sublist (addVoxelLoop_initial_segment toSizeT data.length (parallel_sort data) 0).sublist
    (parallel_sort_sorted data)

theorem sparseFeed_subset (data : List Nat) (c : Nat) (hc : c ∈ (sparseFeed data).1) :
    c ∈ data :=
  (parallel_sort_perm data).mem_iff.mp
    ((addVoxelLoop_initial_segment toSizeT data.length (parallel_sort data) 0).sublist.subset hc)

theorem runSVO_of_small (data : List Nat) (h : data.length < 2 ^ 31) :
    runSVO true data data.length = (data.map Event.addVoxel, Outcome.finished) := by
  have := addVoxelLoop_all toUInt (fun k hk => toUInt_natCast k (by omega)) data 0
    (by omega)
  unfold runSVO
  simp only [Nat.zero_add, Nat.cast_zero] at this
  simp [this]

theorem addVoxelArgs_append (l₁ l₂ : List Event) :
    addVoxelArgs (l₁ ++ l₂) = addVoxelArgs l₁ ++ addVoxelArgs l₂ := by
  induction l₁ with
  | nil => rfl
  | cons e l ih => cases e <;> simp [addVoxelArgs, ih]

theorem addVoxelArgs_map (l : List Nat) : addVoxelArgs (l.map Event.addVoxel) = l := by
  induction l with
  | nil => rfl
  | cons c l ih => simp [addVoxelArgs, ih]

/-- C3: for a sparse list with fewer than `2^31` entries left by the voxelizer with
`use_data` true, the CPU driver passes to `builder.addVoxel` a sequence that is sorted in
non-decreasing order and is a permutation of the list. -/
theorem cpu_sparse_sorted_perm (morton_part i : Nat) (r : VoxelizerResult)
    (huse : r.use_data = true) (hlen : r.data.length < 2 ^ 31) :
    List.Sorted (fun a b => a ≤ b) (buildSVO morton_part i r).1 ∧
      (buildSVO morton_part i r).1.Perm r.data ∧
      (buildSVO morton_part i r).2 = Outcome.finished := by
  unfold buildSVO
  rw [huse, if_pos rfl, sparseFeed_of_small r.data hlen]
  exact ⟨parallel_sort_sorted r.data, parallel_sort_perm r.data, rfl⟩

/-- C3 (witness): the list `[9, 8, 9, 10]` of partition 1 of a `4^3` grid in 8 parts. -/
theorem cpu_sparse_sorted_perm_witness :
    List.Sorted (fun a b => a ≤ b) (buildSVO 8 1 ⟨true, [9, 8, 9, 10], fun _ => 0⟩).1 ∧
      (buildSVO 8 1 ⟨true, [9, 8, 9, 10], fun _ => 0⟩).1.Perm [9, 8, 9, 10] ∧
      (buildSVO 8 1 ⟨true, [9, 8, 9, 10], fun _ => 0⟩).2 = Outcome.finished :=
  cpu_sparse_sorted_perm 8 1 ⟨true, [9, 8, 9, 10], fun _ => 0⟩ rfl (by decide)

/-- C4 (counterexample): the voxelizer leaves the code 5 twice; the CPU driver passes
`5, 5, 7` to `addVoxel` and `runSVO` of the CUDA driver passes `5, 7, 5`: the code 5
reaches the builder twice in both. -/
theorem duplicates_reach_builder :
    (buildSVO 8 0 ⟨true, [5, 7, 5], fun _ => 0⟩).1 = [5, 5, 7] ∧
      ¬ (buildSVO 8 0 ⟨true, [5, 7, 5], fun _ => 0⟩).1.Nodup ∧
      addVoxelArgs (runSVO true [5, 7, 5] 3).1 = [5, 7, 5] ∧
      ¬ (addVoxelArgs (runSVO true [5, 7, 5] 3).1).Nodup := by
  decide

/-- C4 (amended): the drivers remove no duplicates.  For a sparse list with fewer than
`2^31` entries, every code is passed to `builder.addVoxel` exactly as many times as it
occurs in the list: by the CPU driver in sorted order, by `runSVO` of the CUDA driver in
the order of the list.  A code reaches the builder exactly once only if the voxelizer
left it exactly once. -/
theorem duplicates_kept (morton_part i : Nat) (r : VoxelizerResult)
    (huse : r.use_data = true) (hlen : r.data.length < 2 ^ 31) :
    (∀ c, (buildSVO morton_part i r).1.count c = r.data.count c) ∧
      addVoxelArgs (runSVO true r.data r.data.length).1 = r.data := by
  constructor
  · intro c
    unfold buildSVO
    rw [huse, if_pos rfl, sparseFeed_of_small r.data hlen]
    exact (parallel_sort_perm r.data).count_eq c
  · rw [runSVO_of_small r.data hlen]
    exact addVoxelArgs_map r.data

/-- C4 (witness): the amended statement at the list `[5, 7, 5]`. -/
theorem duplicates_kept_witness :
    (∀ c, (buildSVO 8 0 ⟨true, [5, 7, 5], fun _ => 0⟩).1.count c = [5, 7, 5].count c) ∧
      addVoxelArgs (runSVO true [5, 7, 5] [5, 7, 5].length).1 = [5, 7, 5] :=
  duplicates_kept 8 0 ⟨true, [5, 7, 5], fun _ => 0⟩ rfl (by decide)

/-! ### The dense branch -/

theorem lnot_eq_empty (v : Nat) : lnot v = EMPTY_VOXEL ↔ v ≠ EMPTY_VOXEL := by
  unfold lnot EMPTY_VOXEL
  split <;> simp_all

theorem mem_denseFeed (start morton_part : Nat) (voxels : Nat → Nat) (c : Nat) :
    c ∈ denseFeed start morton_part voxels ↔
      ∃ j, j < morton_part ∧ voxels j ≠ EMPTY_VOXEL ∧ c = wrap64 (start + j) := by
  unfold denseFeed
  rw [List.mem_filterMap]
  constructor
  · rintro ⟨j, hj, hf⟩
    refine ⟨j, List.mem_range.mp hj, ?_⟩
    by_cases h : lnot (voxels j) = EMPTY_VOXEL
    · rw [if_pos h] at hf
      exact ⟨(lnot_eq_empty _).mp h, (Option.some.inj hf).symm⟩
    · rw [if_neg h] at hf
      exact absurd hf (by simp)
  · rintro ⟨j, hj, hv, rfl⟩
    exact ⟨j, List.mem_range.mpr hj, by rw [if_pos ((lnot_eq_empty _).mpr hv)]⟩

/-- Inside partition `i`, `start + j` does not wrap and stays below `end`. -/
theorem partStart_add_lt (gridsize n i j : Nat) (hi : i < n) (hj : j < mortonPart gridsize n) :
    wrap64 (partStart (mortonPart gridsize n) i + j) = partStart (mortonPart gridsize n) i + j ∧
      partStart (mortonPart gridsize n) i + j < partEnd (mortonPart gridsize n) i := by
  have hlt : partStart (mortonPart gridsize n) i + j < partEnd (mortonPart gridsize n) i := by
    rw [partStart_eq gridsize n i hi, partEnd_eq gridsize n i hi, Nat.add_mul, Nat.one_mul]
    omega
  have hE : partEnd (mortonPart gridsize n) i < 2 ^ 64 := by
    unfold partEnd wrap64; exact Nat.mod_lt _ (by norm_num)
  exact ⟨by unfold wrap64; exact Nat.mod_eq_of_lt (by omega), hlt⟩

/-- C5 (counterexample): one partition of a `2^3` grid, cell 5 `FULL`, cell 6 left
`WORKING`, the sparse list `[5]`.  The list holds exactly the `FULL` cells, yet the
dense branch passes `5, 6` to `addVoxel` and the sparse branch only `5`. -/
theorem working_cell_is_fed_by_dense_branch :
    (∀ j, (fun j => if j = 5 then FULL_VOXEL else if j = 6 then WORKING_VOXEL
        else EMPTY_VOXEL) j ∈ [EMPTY_VOXEL, FULL_VOXEL, WORKING_VOXEL]) ∧
    (∀ c, c ∈ [5] ↔ ∃ j, j < mortonPart 2 1 ∧
        (fun j => if j = 5 then FULL_VOXEL else if j = 6 then WORKING_VOXEL
          else EMPTY_VOXEL) j = FULL_VOXEL ∧ c = partStart (mortonPart 2 1) 0 + j) ∧
    (buildSVO (mortonPart 2 1) 0 ⟨false, [5], fun j => if j = 5 then FULL_VOXEL
        else if j = 6 then WORKING_VOXEL else EMPTY_VOXEL⟩).1 = [5, 6] ∧
    (buildSVO (mortonPart 2 1) 0 ⟨true, [5], fun j => if j = 5 then FULL_VOXEL
        else if j = 6 then WORKING_VOXEL else EMPTY_VOXEL⟩).1 = [5] ∧
    ¬ (∀ c, c ∈ (buildSVO (mortonPart 2 1) 0 ⟨false, [5], fun j => if j = 5 then FULL_VOXEL
          else if j = 6 then WORKING_VOXEL else EMPTY_VOXEL⟩).1 ↔
        c ∈ (buildSVO (mortonPart 2 1) 0 ⟨true, [5], fun j => if j = 5 then FULL_VOXEL
          else if j = 6 then WORKING_VOXEL else EMPTY_VOXEL⟩).1) := by
  refine ⟨?_, ?_, by decide, by decide, fun h => absurd ((h 6).mp (by decide)) (by decide)⟩
  · intro j
    by_cases h5 : j = 5
    · simp [h5]
    · by_cases h6 : j = 6
      · simp [h6]
      · simp [h5, h6]
  · intro c
    have hmp : mortonPart 2 1 = 8 := by decide
    have hst : partStart 8 0 = 0 := by decide
    rw [hmp, hst]
    constructor
    · intro hc
      have hc5 : c = 5 := by simpa using hc
      exact ⟨5, by norm_num, by simp, by simp [hc5]⟩
    · rintro ⟨j, -, hv, rfl⟩
      by_cases h5 : j = 5
      · simp [h5]
      · by_cases h6 : j = 6
        · simp [h6, FULL_VOXEL, WORKING_VOXEL] at hv
        · simp [h5, h6, FULL_VOXEL, EMPTY_VOXEL] at hv

/-- C5 (amended): for partition `i` of the CPU driver with range start `start`, every
dense array `voxels` and every sparse list `data` with fewer than `2^31` entries whose
set of codes equals `{ start + j | j < morton_part, voxels[j] ≠ EMPTY_VOXEL }`, the dense
branch and the sparse branch pass the same set of codes to `builder.addVoxel`. -/
theorem dense_sparse_same_codes (gridsize n_partitions i : Nat) (hi : i < n_partitions)
    (data : List Nat) (voxels : Nat → Nat) (hlen : data.length < 2 ^ 31)
    (hset : ∀ c, c ∈ data ↔ ∃ j, j < mortonPart gridsize n_partitions ∧
        voxels j ≠ EMPTY_VOXEL ∧ c = partStart (mortonPart gridsize n_partitions) i + j) :
    ∀ c, c ∈ (buildSVO (mortonPart gridsize n_partitions) i ⟨false, data, voxels⟩).1 ↔
      c ∈ (buildSVO (mortonPart gridsize n_partitions) i ⟨true, data, voxels⟩).1 := by
  intro c
  unfold buildSVO
  simp only [Bool.false_eq_true, if_false, if_true]
  rw [sparseFeed_of_small data hlen, mem_denseFeed]
  show _ ↔ c ∈ parallel_sort data
  rw [(parallel_sort_perm data).mem_iff, hset c]
  constructor
  · rintro ⟨j, hj, hv, rfl⟩
    exact ⟨j, hj, hv, (partStart_add_lt gridsize n_partitions i j hi hj).1⟩
  · rintro ⟨j, hj, hv, rfl⟩
    exact ⟨j, hj, hv, (partStart_add_lt gridsize n_partitions i j hi hj).1.symm⟩

/-- C5 (witness): the amended statement for the single partition of a `2^3` grid with
cell 5 `FULL`, cell 6 `WORKING` and the sparse list `[6, 5, 5]`. -/
theorem dense_sparse_same_codes_witness :
    [6, 5, 5].length < 2 ^ 31 ∧ ∀ c, c ∈ (buildSVO (mortonPart 2 1) 0 ⟨false, [6, 5, 5], fun j => if j = 5 then FULL_VOXEL
        else if j = 6 then WORKING_VOXEL else EMPTY_VOXEL⟩).1 ↔
      c ∈ (buildSVO (mortonPart 2 1) 0 ⟨true, [6, 5, 5], fun j => if j = 5 then FULL_VOXEL
        else if j = 6 then WORKING_VOXEL else EMPTY_VOXEL⟩).1 :=
  ⟨by decide, dense_sparse_same_codes 2 1 0 (by decide) [6, 5, 5]
    (fun j => if j = 5 then FULL_VOXEL else if j = 6 then WORKING_VOXEL else EMPTY_VOXEL)
    (by decide)
    (by
      intro c
      have hmp : mortonPart 2 1 = 8 := by decide
      have hst : partStart 8 0 = 0 := by decide
      rw [hmp, hst]
      constructor
      · intro hc
        have hc' : c = 6 ∨ c = 5 := by simpa using hc
        rcases hc' with h | h
        · exact ⟨6, by norm_num, by simp [WORKING_VOXEL, EMPTY_VOXEL], by simp [h]⟩
        · exact ⟨5, by norm_num, by simp [FULL_VOXEL, EMPTY_VOXEL], by simp [h]⟩
      · rintro ⟨j, -, hv, rfl⟩
        by_cases h5 : j = 5
        · simp [h5]
        · by_cases h6 : j = 6
          · simp [h6]
          · simp [h5, h6] at hv)⟩

/-! ### `runSVO` without a sparse list -/

theorem countLoop_voxelization (t : TripInfo) (is : List Nat) :
    ∀ e ∈ Cuda.countLoop t is, e.isVoxelization = true := by
  induction is with
  | nil => intro e he; simp [Cuda.countLoop] at he
  | cons i is ih =>
    intro e he
    unfold Cuda.countLoop at he
    split at he
    · exact ih e he
    · rcases List.mem_cons.mp he with h | h
      · rw [h]; rfl
      · exact ih e h

theorem fillLoop_voxelization (t : TripInfo) (nfilled : Nat → Nat) (is : List Nat) :
    ∀ (prev_idx : Int), ∀ e ∈ Cuda.fillLoop t nfilled is prev_idx, e.isVoxelization = true := by
  induction is with
  | nil => intro p e he; simp [Cuda.fillLoop] at he
  | cons i is ih =>
    intro p e he
    unfold Cuda.fillLoop at he
    split at he
    · exact ih p e he
    · rcases List.mem_cons.mp he with h | h
      · rw [h]; rfl
      · exact ih _ e h

theorem voxelization_append (l₁ l₂ : List Event)
    (h₁ : ∀ e ∈ l₁, e.isVoxelization = true) (h₂ : ∀ e ∈ l₂, e.isVoxelization = true) :
    ∀ e ∈ l₁ ++ l₂, e.isVoxelization = true := by
  intro e he
  rcases List.mem_append.mp he with h | h
  · exact h₁ e h
  · exact h₂ e h

theorem addVoxelArgs_of_voxelization (l : List Event)
    (h : ∀ e ∈ l, e.isVoxelization = true) : addVoxelArgs l = [] := by
  induction l with
  | nil => rfl
  | cons e l ih =>
    have he := h e (List.mem_cons_self e l)
    have hl := ih (fun x hx => h x (List.mem_cons_of_mem e hx))
    cases e <;> simp_all [addVoxelArgs, Event.isVoxelization]


/-- C6 (counterexample): `runSVO` called with `use_data` false passes nothing to the
builder and ends the process with `exit(-1)`; it does not return. -/
theorem runSVO_dense_does_not_return :
    runSVO false [5, 6] 2 = ([], Outcome.exited (-1)) ∧
      (runSVO false [5, 6] 2).2 ≠ Outcome.finished ∧
      (Cuda.build ⟨2, 1, fun _ => 1⟩ ⟨false, fun _ => 2, 2, [5, 6]⟩).2
        = Outcome.exited (-1) := by
  decide

/-- C6 (amended): in the CUDA driver, when voxelization ends with `use_data` false,
`runSVO` has no dense fallback: it passes no code to the builder and terminates the
process with `exit(-1)` (exit status 255), so that `finalizeTree` is never reached. -/
theorem runSVO_dense_exits (t : TripInfo) (c : CudaResult) (huse : c.use_data = false)
    (hn : t.n_partitions ≠ 0) :
    runSVO c.use_data c.data (wrap32 c.tot_nfilled) = ([], Outcome.exited (-1)) ∧
      exitStatus (-1) = 255 ∧
      (Cuda.build t c).2 = Outcome.exited (-1) ∧
      addVoxelArgs (Cuda.build t c).1 = [] ∧
      Event.finalizeTree ∉ (Cuda.build t c).1 := by
  have hrun : runSVO c.use_data c.data (wrap32 c.tot_nfilled) = ([], Outcome.exited (-1)) := by
    unfold runSVO; rw [huse]; rfl
  have hbuild : Cuda.build t c =
      (Cuda.countLoop t (List.range t.n_partitions)
        ++ Cuda.fillLoop t c.nfilled (List.range t.n_partitions) 0, Outcome.exited (-1)) := by
    unfold Cuda.build
    rw [if_neg hn, hrun]
    simp
  refine ⟨hrun, by decide, by rw [hbuild], ?_, ?_⟩
  · rw [hbuild]
    exact addVoxelArgs_of_voxelization _ (voxelization_append _ _
      (countLoop_voxelization t _) (fillLoop_voxelization t c.nfilled _ 0))
  · rw [hbuild]
    intro hmem
    have := voxelization_append _ _
      (countLoop_voxelization t (List.range t.n_partitions))
      (fillLoop_voxelization t c.nfilled (List.range t.n_partitions) 0) _ hmem
    simp [Event.isVoxelization] at this

/-- C6 (witness): two processed partitions, the voxelizer ending with `use_data` false. -/
theorem runSVO_dense_exits_witness :
    runSVO false [5, 6] (wrap32 2) = ([], Outcome.exited (-1)) ∧
      exitStatus (-1) = 255 ∧
      (Cuda.build ⟨2, 2, fun _ => 1⟩ ⟨false, fun _ => 2, 2, [5, 6]⟩).2 = Outcome.exited (-1) ∧
      addVoxelArgs (Cuda.build ⟨2, 2, fun _ => 1⟩ ⟨false, fun _ => 2, 2, [5, 6]⟩).1 = [] ∧
      Event.finalizeTree ∉ (Cuda.build ⟨2, 2, fun _ => 1⟩ ⟨false, fun _ => 2, 2, [5, 6]⟩).1 :=
  runSVO_dense_exits ⟨2, 2, fun _ => 1⟩ ⟨false, fun _ => 2, 2, [5, 6]⟩ rfl (by decide)

/-! ### Order of the codes over the whole CPU run -/

theorem denseFeed_succ (start m : Nat) (voxels : Nat → Nat) :
    denseFeed start (m + 1) voxels = denseFeed start m voxels ++
      (if lnot (voxels m) = EMPTY_VOXEL then [wrap64 (start + m)] else []) := by
  unfold denseFeed
  rw [List.range_succ, List.filterMap_append]
  by_cases h : lnot (voxels m) = EMPTY_VOXEL <;> simp [List.filterMap, h]

theorem denseFeed_sorted (start : Nat) (voxels : Nat → Nat) :
    ∀ m, start + m ≤ 2 ^ 64 → List.Sorted (fun a b => a ≤ b) (denseFeed start m voxels) := by
  intro m
  induction m with
  | zero => intro _; simp [denseFeed, List.Sorted]
  | succ m ih =>
    intro hm
    rw [denseFeed_succ]
    refine List.pairwise_append.mpr ⟨ih (by omega), ?_, ?_⟩
    · split <;> simp
    · intro a ha b hb
      obtain ⟨j, hj, -, rfl⟩ := (mem_denseFeed start m voxels a).mp ha
      split at hb
      · have hb' : b = wrap64 (start + m) := by simpa using hb
        rw [hb']
        unfold wrap64
        rw [Nat.mod_eq_of_lt (by omega), Nat.mod_eq_of_lt (by omega)]
        omega
      · simp at hb

theorem partEnd_le_two_pow (morton_part i : Nat) : partEnd morton_part i < 2 ^ 64 := by
  unfold partEnd wrap64; exact Nat.mod_lt _ (by norm_num)

theorem buildSVO_sorted (gridsize n i : Nat) (hi : i < n) (r : VoxelizerResult) :
    List.Sorted (fun a b => a ≤ b) (buildSVO (mortonPart gridsize n) i r).1 := by
  unfold buildSVO
  split
  · exact sparseFeed_sorted r.data
  · apply denseFeed_sorted
    have h := partEnd_le_two_pow (mortonPart gridsize n) i
    rw [partEnd_eq gridsize n i hi] at h
    rw [partStart_eq gridsize n i hi]
    rw [Nat.add_mul, Nat.one_mul] at h
    omega

theorem buildSVO_inPart (gridsize n i : Nat) (hi : i < n) (r : VoxelizerResult)
    (hr : r.use_data = true → ∀ c ∈ r.data, inPart (mortonPart gridsize n) i c) :
    ∀ c ∈ (buildSVO (mortonPart gridsize n) i r).1, inPart (mortonPart gridsize n) i c := by
  intro c hc
  unfold buildSVO at hc
  split at hc
  · next huse => exact hr huse c (sparseFeed_subset r.data c hc)
  · obtain ⟨j, hj, -, rfl⟩ := (mem_denseFeed _ _ _ c).mp hc
    have h := partStart_add_lt gridsize n i j hi hj
    rw [h.1]
    exact ⟨Nat.le_add_right _ _, h.2⟩

theorem inPart_lt_inPart (gridsize n i k c d : Nat) (hik : i < k) (hk : k < n)
    (hc : inPart (mortonPart gridsize n) i c) (hd : inPart (mortonPart gridsize n) k d) :
    c < d := by
  have h1 := hc.2
  have h2 := hd.1
  rw [partEnd_eq gridsize n i (lt_trans hik hk)] at h1
  rw [partStart_eq gridsize n k hk] at h2
  have : (i + 1) * mortonPart gridsize n ≤ k * mortonPart gridsize n :=
    Nat.mul_le_mul_right _ hik
  omega

theorem partitionLoop_args (t : TripInfo) (morton_part : Nat) (vox : Nat → VoxelizerResult)
    (i : Nat) (is : List Nat) (hi : t.part_tricounts i ≠ 0) :
    addVoxelArgs (Cpu.partitionLoop t morton_part vox (i :: is)).1 =
        (buildSVO morton_part i (vox i)).1 ∨
      addVoxelArgs (Cpu.partitionLoop t morton_part vox (i :: is)).1 =
        (buildSVO morton_part i (vox i)).1 ++
          addVoxelArgs (Cpu.partitionLoop t morton_part vox is).1 := by
  simp only [Cpu.partitionLoop, if_neg hi]
  split
  · right
    simp [addVoxelArgs, addVoxelArgs_append, addVoxelArgs_map]
  · left
    simp [addVoxelArgs, addVoxelArgs_map]

theorem partitionLoop_sorted (t : TripInfo) (vox : Nat → VoxelizerResult)
    (hvox : ∀ i, i < t.n_partitions → t.part_tricounts i ≠ 0 → (vox i).use_data = true →
      ∀ c ∈ (vox i).data, inPart (mortonPart t.gridsize t.n_partitions) i c)
    (is : List Nat) (hsorted : List.Pairwise (fun a b => a < b) is)
    (hbound : ∀ i ∈ is, i < t.n_partitions) :
    List.Sorted (fun a b => a ≤ b)
        (addVoxelArgs (Cpu.partitionLoop t (mortonPart t.gridsize t.n_partitions) vox is).1) ∧
      ∀ c ∈ addVoxelArgs
          (Cpu.partitionLoop t (mortonPart t.gridsize t.n_partitions) vox is).1,
        ∃ i ∈ is, inPart (mortonPart t.gridsize t.n_partitions) i c := by
  induction is with
  | nil => simp [Cpu.partitionLoop, addVoxelArgs, List.Sorted]
  | cons i is ih =>
    have hi : i < t.n_partitions := hbound i (List.mem_cons_self i is)
    have hrest := ih (List.Pairwise.of_cons hsorted)
      (fun k hk => hbound k (List.mem_cons_of_mem i hk))
    by_cases h0 : t.part_tricounts i = 0
    · have hloop : Cpu.partitionLoop t (mortonPart t.gridsize t.n_partitions) vox (i :: is) =
          Cpu.partitionLoop t (mortonPart t.gridsize t.n_partitions) vox is := by
        simp only [Cpu.partitionLoop, if_pos h0]
      rw [hloop]
      refine ⟨hrest.1, fun c hc => ?_⟩
      obtain ⟨k, hk, hkc⟩ := hrest.2 c hc
      exact ⟨k, List.mem_cons_of_mem i hk, hkc⟩
    · have hblock := buildSVO_inPart t.gridsize t.n_partitions i hi (vox i) (hvox i hi h0)
      have hbs := buildSVO_sorted t.gridsize t.n_partitions i hi (vox i)
      rcases partitionLoop_args t (mortonPart t.gridsize t.n_partitions) vox i is h0 with h | h
      · rw [h]
        exact ⟨hbs, fun c hc => ⟨i, List.mem_cons_self i is, hblock c hc⟩⟩
      · rw [h]
        refine ⟨List.pairwise_append.mpr ⟨hbs, hrest.1, ?_⟩, ?_⟩
        · intro a ha b hb
          obtain ⟨k, hk, hkb⟩ := hrest.2 b hb
          have hik : i < k := List.rel_of_pairwise_cons hsorted hk
          exact (inPart_lt_inPart t.gridsize t.n_partitions i k a b hik
            (hbound k (List.mem_cons_of_mem i hk)) (hblock a ha) hkb).le
        · intro c hc
          rcases List.mem_append.mp hc with hc | hc
          · exact ⟨i, List.mem_cons_self i is, hblock c hc⟩
          · obtain ⟨k, hk, hkc⟩ := hrest.2 c hc
            exact ⟨k, List.mem_cons_of_mem i hk, hkc⟩

theorem build_args (t : TripInfo) (vox : Nat → VoxelizerResult) :
    addVoxelArgs (Cpu.build t vox).1 = [] ∨
      addVoxelArgs (Cpu.build t vox).1 =
        addVoxelArgs (Cpu.partitionLoop t (mortonPart t.gridsize t.n_partitions) vox
          (List.range t.n_partitions)).1 := by
  unfold Cpu.build
  split
  · left; rfl
  · right
    split
    · simp [addVoxelArgs_append, addVoxelArgs]
    · rfl

/-- C2: in the CPU driver, when the voxelizer leaves for each processed partition `i`
either a sparse list whose codes all lie in `[i * morton_part, (i + 1) * morton_part)`
or a dense array of `morton_part` cells, the sequence of all arguments passed to
`builder.addVoxel` over the whole run is non-decreasing, and every code fed for a
partition `i` is smaller than every code fed for a later partition `k > i`. -/
theorem cpu_codes_nondecreasing (t : TripInfo) (vox : Nat → VoxelizerResult)
    (hvox : ∀ i, i < t.n_partitions → t.part_tricounts i ≠ 0 → (vox i).use_data = true →
      ∀ c ∈ (vox i).data, inPart (mortonPart t.gridsize t.n_partitions) i c) :
    List.Sorted (fun a b => a ≤ b) (addVoxelArgs (Cpu.build t vox).1) ∧
      ∀ i k, i < k → k < t.n_partitions → t.part_tricounts i ≠ 0 → t.part_tricounts k ≠ 0 →
        ∀ c ∈ (buildSVO (mortonPart t.gridsize t.n_partitions) i (vox i)).1,
        ∀ d ∈ (buildSVO (mortonPart t.gridsize t.n_partitions) k (vox k)).1, c < d := by
  constructor
  · rcases build_args t vox with h | h
    · rw [h]; simp [List.Sorted]
    · rw [h]
      exact (partitionLoop_sorted t vox hvox (List.range t.n_partitions)
        (List.pairwise_lt_range _) (fun i hi => List.mem_range.mp hi)).1
  · intro i k hik hk hi0 hk0 c hc d hd
    have hi : i < t.n_partitions := lt_trans hik hk
    exact inPart_lt_inPart t.gridsize t.n_partitions i k c d hik hk
      (buildSVO_inPart t.gridsize t.n_partitions i hi (vox i) (hvox i hi hi0) c hc)
      (buildSVO_inPart t.gridsize t.n_partitions k hk (vox k) (hvox k hk hk0) d hd)

/-- C2 (witness): partition 0 with the sparse list `[3, 1, 1]` in `[0, 4)`, partition 1
with a dense array. -/
theorem cpu_codes_nondecreasing_witness :
    (∀ i, i < sampleTrip.n_partitions → sampleTrip.part_tricounts i ≠ 0 →
        (sampleVoxelizer i).use_data = true → ∀ c ∈ (sampleVoxelizer i).data,
          inPart (mortonPart sampleTrip.gridsize sampleTrip.n_partitions) i c) ∧
      addVoxelArgs (Cpu.build sampleTrip sampleVoxelizer).1 = [1, 1, 3, 5, 6] ∧
      List.Sorted (fun a b => a ≤ b) (addVoxelArgs (Cpu.build sampleTrip sampleVoxelizer).1) :=
  ⟨by decide, by decide, (cpu_codes_nondecreasing sampleTrip sampleVoxelizer (by decide)).1⟩

/-! ### The end of a run -/

theorem teardown_of_voxelization (e : Event) (h : e.isVoxelization = true) :
    e.isTeardown = false := by
  cases e <;> simp_all [Event.isVoxelization, Event.isTeardown]

theorem teardown_map_addVoxel (l : List Nat) :
    ∀ e ∈ l.map Event.addVoxel, e.isTeardown = false := by
  intro e he
  obtain ⟨c, -, rfl⟩ := List.mem_map.mp he
  rfl

theorem teardown_append (l₁ l₂ : List Event)
    (h₁ : ∀ e ∈ l₁, e.isTeardown = false) (h₂ : ∀ e ∈ l₂, e.isTeardown = false) :
    ∀ e ∈ l₁ ++ l₂, e.isTeardown = false := by
  intro e he
  rcases List.mem_append.mp he with h | h
  · exact h₁ e h
  · exact h₂ e h

theorem teardown_cons (e : Event) (l : List Event)
    (h₁ : e.isTeardown = false) (h₂ : ∀ x ∈ l, x.isTeardown = false) :
    ∀ x ∈ e :: l, x.isTeardown = false := by
  intro x hx
  rcases List.mem_cons.mp hx with h | h
  · rw [h]; exact h₁
  · exact h₂ x h

theorem partitionLoop_teardown (t : TripInfo) (morton_part : Nat)
    (vox : Nat → VoxelizerResult) (is : List Nat) :
    ∀ e ∈ (Cpu.partitionLoop t morton_part vox is).1, e.isTeardown = false := by
  induction is with
  | nil => intro e he; simp [Cpu.partitionLoop] at he
  | cons i is ih =>
    by_cases h0 : t.part_tricounts i = 0
    · simp only [Cpu.partitionLoop, if_pos h0]; exact ih
    · simp only [Cpu.partitionLoop, if_neg h0]
      split
      · exact teardown_cons _ _ rfl (teardown_append _ _ (teardown_map_addVoxel _) ih)
      · exact teardown_cons _ _ rfl (teardown_map_addVoxel _)

theorem runSVO_teardown (use_data : Bool) (data : List Nat) (data_size : Nat) :
    ∀ e ∈ (runSVO use_data data data_size).1, e.isTeardown = false := by
  unfold runSVO
  split
  · exact teardown_map_addVoxel _
  · intro e he; simp at he

/-- A trace of steps that are neither `finalizeTree` nor `removeTripFiles`, followed by
these two calls, obeys the protocol. -/
theorem finalizeProtocol_of_steps (steps : List Event)
    (h : ∀ e ∈ steps, e.isTeardown = false) :
    FinalizeProtocol (steps ++ [Event.finalizeTree, Event.removeTripFiles]) := by
  refine ⟨steps, [Event.removeTripFiles], rfl, ?_, by simp, ?_, ?_⟩
  · intro hmem; have := h _ hmem; simp [Event.isTeardown] at this
  · intro hmem; have := h _ hmem; simp [Event.isTeardown] at this
  · intro e he
    have : e = Event.removeTripFiles := by simpa using he
    rw [this]; rfl

theorem cpu_build_finished (t : TripInfo) (vox : Nat → VoxelizerResult)
    (h : (Cpu.build t vox).2 = Outcome.finished) :
    ∃ steps, (Cpu.build t vox).1 = steps ++ [Event.finalizeTree, Event.removeTripFiles] ∧
      ∀ e ∈ steps, e.isTeardown = false := by
  unfold Cpu.build at h ⊢
  split at h
  · simp at h
  · next hn =>
    split at h
    · rw [if_neg hn]
      exact ⟨_, rfl, partitionLoop_teardown t _ vox _⟩
    · next o hne => exact absurd h hne

theorem cuda_build_finished (t : TripInfo) (c : CudaResult)
    (h : (Cuda.build t c).2 = Outcome.finished) :
    ∃ steps, (Cuda.build t c).1 = steps ++ [Event.finalizeTree, Event.removeTripFiles] ∧
      ∀ e ∈ steps, e.isTeardown = false := by
  unfold Cuda.build at h ⊢
  split at h
  · simp at h
  · next hn =>
    split at h
    · rw [if_neg hn]
      refine ⟨_, rfl, teardown_append _ _ (teardown_append _ _ ?_ ?_) (runSVO_teardown _ _ _)⟩
      · exact fun e he => teardown_of_voxelization e (countLoop_voxelization t _ e he)
      · exact fun e he => teardown_of_voxelization e (fillLoop_voxelization t _ _ _ e he)
    · next o hne => exact absurd h hne

theorem runMain_finished (build : World → TripInfo → List Event × Outcome) (w : World)
    (argv : List String) (h : (runMain build w argv).2 = Outcome.finished) :
    ∃ t, (runMain build w argv).1 =
        [Event.readTriHeader, Event.estimatePartitions, Event.partition,
          Event.readTripHeader] ++ (build w t).1 ∧
      (build w t).2 = Outcome.finished := by
  unfold runMain at h ⊢
  split at h
  · simp at h
  · simp at h
  · split at h
    · simp at h
    · split at h
      · simp at h
      · next h1 h2 =>
        rw [if_neg h1, if_neg h2]
        exact ⟨_, rfl, h⟩

theorem main_finished (d : Driver) (w : World) (argv : List String)
    (h : (main d w argv).2 = Outcome.finished) :
    ∃ steps, (main d w argv).1 = steps ++ [Event.finalizeTree, Event.removeTripFiles] ∧
      ∀ e ∈ steps, e.isTeardown = false := by
  have hdr : ∀ e ∈ [Event.readTriHeader, Event.estimatePartitions, Event.partition,
      Event.readTripHeader], e.isTeardown = false := by decide
  cases d with
  | cpu =>
    obtain ⟨t, htr, hfin⟩ := runMain_finished (fun w t => Cpu.build t w.voxelizer) w argv h
    obtain ⟨steps, hsteps, hno⟩ := cpu_build_finished t w.voxelizer hfin
    refine ⟨_ ++ steps, ?_, teardown_append _ _ hdr hno⟩
    show (runMain (fun w t => Cpu.build t w.voxelizer) w argv).1 = _
    rw [htr]
    show _ ++ (Cpu.build t w.voxelizer).1 = _
    rw [hsteps, List.append_assoc]
  | cuda =>
    obtain ⟨t, htr, hfin⟩ := runMain_finished (fun w t => Cuda.build t w.cuda) w argv h
    obtain ⟨steps, hsteps, hno⟩ := cuda_build_finished t w.cuda hfin
    refine ⟨_ ++ steps, ?_, teardown_append _ _ hdr hno⟩
    show (runMain (fun w t => Cuda.build t w.cuda) w argv).1 = _
    rw [htr]
    show _ ++ (Cuda.build t w.cuda).1 = _
    rw [hsteps, List.append_assoc]

/-- C7: in every run of either driver that reaches the end of `main`,
`builder.finalizeTree` is called exactly once, every `builder.addVoxel` call precedes
it, and `removeTripFiles` is called only after it. -/
theorem finalize_once_after_all_addVoxel (d : Driver) (w : World) (argv : List String)
    (h : (main d w argv).2 = Outcome.finished) :
    FinalizeProtocol (main d w argv).1 := by
  obtain ⟨steps, hsteps, hno⟩ := main_finished d w argv h
  rw [hsteps]
  exact finalizeProtocol_of_steps steps hno

/-- C7 (witness): a complete run of each driver on `-f bunny.tri -s 2`. -/
theorem finalize_once_after_all_addVoxel_witness :
    ((main Driver.cpu sampleWorld ["svo_builder", "-f", "bunny.tri", "-s", "2"]).2
        = Outcome.finished ∧
      FinalizeProtocol
        (main Driver.cpu sampleWorld ["svo_builder", "-f", "bunny.tri", "-s", "2"]).1) ∧
    ((main Driver.cuda sampleWorld ["svo_builder", "-f", "bunny.tri", "-s", "2"]).2
        = Outcome.finished ∧
      FinalizeProtocol
        (main Driver.cuda sampleWorld ["svo_builder", "-f", "bunny.tri", "-s", "2"]).1) :=
  ⟨⟨by decide, finalize_once_after_all_addVoxel Driver.cpu sampleWorld
      ["svo_builder", "-f", "bunny.tri", "-s", "2"] (by decide)⟩,
   ⟨by decide, finalize_once_after_all_addVoxel Driver.cuda sampleWorld
      ["svo_builder", "-f", "bunny.tri", "-s", "2"] (by decide)⟩⟩

/-! ### Voxelization and octree building in the CUDA driver -/

theorem runSVO_not_voxelization (use_data : Bool) (data : List Nat) (data_size : Nat) :
    ∀ e ∈ (runSVO use_data data data_size).1, e.isVoxelization = false := by
  unfold runSVO
  split
  · intro e he
    obtain ⟨c, -, rfl⟩ := List.mem_map.mp he
    rfl
  · intro e he; simp at he

/-- C8 (counterexample): two processed partitions of four codes each, code 3 filled for
partition 0 and code 5 for partition 1.  The run voxelizes partition 1 before any code
is passed to the builder: `addVoxel(3)`, a code of partition 0, follows the fill-pass
voxelization of partition 1. -/
theorem cuda_feeds_builder_after_all_voxelization :
    Cuda.build sampleTrip sampleCuda =
      ([Event.voxelizeCount 0, Event.voxelizeCount 1, Event.voxelizeFill 0 0 1,
        Event.voxelizeFill 1 1 1, Event.addVoxel 3, Event.addVoxel 5,
        Event.finalizeTree, Event.removeTripFiles], Outcome.finished) ∧
    ¬ ConsumedBeforeNext (mortonPart sampleTrip.gridsize sampleTrip.n_partitions)
        (Cuda.build sampleTrip sampleCuda).1 := by
  have hrun : Cuda.build sampleTrip sampleCuda =
      ([Event.voxelizeCount 0, Event.voxelizeCount 1, Event.voxelizeFill 0 0 1,
        Event.voxelizeFill 1 1 1, Event.addVoxel 3, Event.addVoxel 5,
        Event.finalizeTree, Event.removeTripFiles], Outcome.finished) := by decide
  refine ⟨hrun, ?_⟩
  intro h
  rw [hrun] at h
  exact h [Event.voxelizeCount 0, Event.voxelizeCount 1, Event.voxelizeFill 0 0 1]
    [Event.addVoxel 3, Event.addVoxel 5, Event.finalizeTree, Event.removeTripFiles]
    1 1 1 rfl 3 (by decide) 0 (by decide) (by decide)

/-- C8 (amended): in the CUDA driver every voxelization call, of the counting pass and of
the fill pass and for every processed partition, precedes every `addVoxel` call: the
builder consumes the codes of all partitions in the single `runSVO` call that follows the
voxelization of the last partition. -/
theorem cuda_voxelization_precedes_building (t : TripInfo) (c : CudaResult) :
    ∃ voxelization building, (Cuda.build t c).1 = voxelization ++ building ∧
      (∀ e ∈ voxelization, e.isVoxelization = true) ∧
      (∀ e ∈ building, e.isVoxelization = false) ∧
      addVoxelArgs (Cuda.build t c).1 = addVoxelArgs building := by
  by_cases hn : t.n_partitions = 0
  · refine ⟨[], [], ?_, by simp, by simp, ?_⟩ <;> simp [Cuda.build, hn]
  · have hvox := voxelization_append _ _
      (countLoop_voxelization t (List.range t.n_partitions))
      (fillLoop_voxelization t c.nfilled (List.range t.n_partitions) 0)
    have hrun := runSVO_not_voxelization c.use_data c.data (wrap32 c.tot_nfilled)
    unfold Cuda.build
    rw [if_neg hn]
    split
    · refine ⟨_, (runSVO c.use_data c.data (wrap32 c.tot_nfilled)).1
          ++ [Event.finalizeTree, Event.removeTripFiles], ?_, hvox, ?_, ?_⟩
      · simp
      · intro e he
        rcases List.mem_append.mp he with h | h
        · exact hrun e h
        · have : e = Event.finalizeTree ∨ e = Event.removeTripFiles := by simpa using h
          rcases this with h | h <;> rw [h] <;> rfl
      · simp only [List.append_assoc]
        rw [addVoxelArgs_append, addVoxelArgs_append,
          addVoxelArgs_of_voxelization _ (countLoop_voxelization t _),
          addVoxelArgs_of_voxelization _ (fillLoop_voxelization t c.nfilled _ 0)]
        simp [addVoxelArgs_append]
    · refine ⟨_, (runSVO c.use_data c.data (wrap32 c.tot_nfilled)).1, rfl, hvox, hrun, ?_⟩
      simp only [List.append_assoc]
      rw [addVoxelArgs_append, addVoxelArgs_append,
        addVoxelArgs_of_voxelization _ (countLoop_voxelization t _),
        addVoxelArgs_of_voxelization _ (fillLoop_voxelization t c.nfilled _ 0)]
      simp

/-! ### `parseProgramParameters` -/

theorem parseLoop_verbose (atoi : String → Int) (isPow : Nat → Bool) (rest : List String)
    (p : Params) :
    parseLoop atoi isPow ("-v" :: rest) p = parseLoop atoi isPow rest { p with verbose := true } := by
  cases rest <;> simp [parseLoop]

theorem parseLoop_levels (atoi : String → Int) (isPow : Nat → Bool) (rest : List String)
    (p : Params) :
    parseLoop atoi isPow ("-levels" :: rest) p =
      parseLoop atoi isPow rest { p with generate_levels := true } := by
  cases rest <;> simp [parseLoop]

/-- When the loop reads the arguments `pre` to the end, it goes on with what follows
them. -/
theorem parseLoop_append (atoi : String → Int) (isPow : Nat → Bool) (l : List String)
    (q : Params) :
    ∀ (n : Nat) (pre : List String) (p : Params), pre.length ≤ n →
      parseLoop atoi isPow pre p = ParseOutcome.ok q →
      parseLoop atoi isPow (pre ++ l) p = parseLoop atoi isPow l q := by
  intro n
  induction n with
  | zero =>
    intro pre p hlen h
    have hnil : pre = [] := List.length_eq_zero.mp (Nat.le_zero.mp hlen)
    subst hnil
    simp only [parseLoop] at h
    rw [List.nil_append, ParseOutcome.ok.inj h]
  | succ n ih =>
    intro pre p hlen h
    cases pre with
    | nil =>
      simp only [parseLoop] at h
      rw [List.nil_append, ParseOutcome.ok.inj h]
    | cons arg rest =>
      have hrest : rest.length ≤ n := by simpa using hlen
      rw [List.cons_append]
      by_cases hv : arg = "-v"
      · subst hv
        rw [parseLoop_verbose] at h ⊢
        exact ih rest _ hrest h
      by_cases hl : arg = "-levels"
      · subst hl
        rw [parseLoop_levels] at h ⊢
        exact ih rest _ hrest h
      cases rest with
      | nil =>
        exfalso
        simp only [parseLoop] at h
        split_ifs at h
      | cons v rest2 =>
        have hrest2 : rest2.length ≤ n := by
          have : (v :: rest2).length = rest2.length + 1 := rfl
          omega
        simp only [parseLoop, List.cons_append] at h ⊢
        split_ifs at h ⊢ <;> exact ih _ _ hrest2 h

/-- Whenever the loop ends the process, it does so with `exit(0)`. -/
theorem parseLoop_exit (atoi : String → Int) (isPow : Nat → Bool) (status : Int) :
    ∀ (n : Nat) (l : List String) (p : Params), l.length ≤ n →
      parseLoop atoi isPow l p = ParseOutcome.exit status → status = 0 := by
  intro n
  induction n with
  | zero =>
    intro l p hlen h
    have hnil : l = [] := List.length_eq_zero.mp (Nat.le_zero.mp hlen)
    subst hnil
    simp [parseLoop] at h
  | succ n ih =>
    intro l p hlen h
    cases l with
    | nil => simp [parseLoop] at h
    | cons arg rest =>
      have hrest : rest.length ≤ n := by simpa using hlen
      by_cases hv : arg = "-v"
      · subst hv
        rw [parseLoop_verbose] at h
        exact ih rest _ hrest h
      by_cases hl : arg = "-levels"
      · subst hl
        rw [parseLoop_levels] at h
        exact ih rest _ hrest h
      cases rest with
      | nil =>
        simp only [parseLoop] at h
        split_ifs at h <;> exact (ParseOutcome.exit.inj h).symm
      | cons v rest2 =>
        have hrest2 : rest2.length ≤ n := by
          have : (v :: rest2).length = rest2.length + 1 := rfl
          omega
        simp only [parseLoop] at h
        split_ifs at h <;> first
          | exact (ParseOutcome.exit.inj h).symm
          | exact ih _ _ hrest2 h

theorem parseLoop_bad_gridsize (atoi : String → Int) (isPow : Nat → Bool) (v : String)
    (rest : List String) (p : Params) (hbad : isPow (wrap32 (toSizeT (atoi v))) = false) :
    parseLoop atoi isPow ("-s" :: v :: rest) p = ParseOutcome.exit 0 := by
  simp [parseLoop, hbad]

theorem runMain_of_exit (build : World → TripInfo → List Event × Outcome) (w : World)
    (argv : List String) (status : Int)
    (h : parseProgramParameters w.atoi w.isPowerOf2 argv = ParseOutcome.exit status) :
    runMain build w argv = ([], Outcome.exited status) := by
  unfold runMain; rw [h]

/-- C9: when `parseProgramParameters` reads a `-s` option (after reading the arguments
`pre` before it to the end) whose value is not a power of two, as judged by `isPowerOf2`
on the value's 32-bit unsigned truncation, the run of either driver ends inside
`parseProgramParameters` with `exit(0)`: its trace is empty, so `readTriHeader`,
`estimate_partitions` and `partition` are never invoked. -/
theorem bad_gridsize_exits_while_parsing (d : Driver) (w : World) (prog v : String)
    (pre rest : List String) (p : Params)
    (hpre : parseLoop w.atoi w.isPowerOf2 pre {} = ParseOutcome.ok p)
    (hbad : w.isPowerOf2 (wrap32 (toSizeT (w.atoi v))) = false) :
    parseProgramParameters w.atoi w.isPowerOf2 (prog :: (pre ++ "-s" :: v :: rest))
        = ParseOutcome.exit 0 ∧
      main d w (prog :: (pre ++ "-s" :: v :: rest)) = ([], Outcome.exited 0) := by
  have hparse : parseProgramParameters w.atoi w.isPowerOf2 (prog :: (pre ++ "-s" :: v :: rest))
      = ParseOutcome.exit 0 := by
    unfold parseProgramParameters
    split
    · rfl
    · rw [List.drop_one, List.tail_cons,
        parseLoop_append w.atoi w.isPowerOf2 _ p pre.length pre {} (le_refl _) hpre]
      exact parseLoop_bad_gridsize w.atoi w.isPowerOf2 v rest p hbad
  refine ⟨hparse, ?_⟩
  cases d with
  | cpu => exact runMain_of_exit (fun w t => Cpu.build t w.voxelizer) w _ 0 hparse
  | cuda => exact runMain_of_exit (fun w t => Cuda.build t w.cuda) w _ 0 hparse

/-- C9 (witness): `-f bunny.tri -s 100 -v`; the value 100 is not a power of two. -/
theorem bad_gridsize_exits_while_parsing_witness :
    parseLoop sampleWorld.atoi sampleWorld.isPowerOf2 ["-f", "bunny.tri"] {}
        = ParseOutcome.ok { filename := "bunny.tri" } ∧
      sampleWorld.isPowerOf2 (wrap32 (toSizeT (sampleWorld.atoi "100"))) = false ∧
      main Driver.cpu sampleWorld ["svo_builder", "-f", "bunny.tri", "-s", "100", "-v"]
        = ([], Outcome.exited 0) :=
  ⟨by decide, by decide,
    (bad_gridsize_exits_while_parsing Driver.cpu sampleWorld "svo_builder" "100"
      ["-f", "bunny.tri"] ["-v"] { filename := "bunny.tri" } (by decide) (by decide)).2⟩

/-- C10 (counterexample): each of the six fatal configuration errors ends the process
with `exit(0)`, that is with exit status zero. -/
theorem configuration_errors_exit_zero :
    exitStatus 0 = 0 ∧
    parseProgramParameters atoiDecimal isPowerOf2 ["svo_builder", "-v"]
      = ParseOutcome.exit 0 ∧
    parseProgramParameters atoiDecimal isPowerOf2 ["svo_builder", "-f", "bunny.obj"]
      = ParseOutcome.exit 0 ∧
    parseProgramParameters atoiDecimal isPowerOf2 ["svo_builder", "-s", "100"]
      = ParseOutcome.exit 0 ∧
    parseProgramParameters atoiDecimal isPowerOf2 ["svo_builder", "-l", "0"]
      = ParseOutcome.exit 0 ∧
    parseProgramParameters atoiDecimal isPowerOf2 ["svo_builder", "-d", "-5"]
      = ParseOutcome.exit 0 ∧
    parseProgramParameters atoiDecimal isPowerOf2 ["svo_builder", "-x", "bunny.tri"]
      = ParseOutcome.exit 0 := by
  decide

/-- C10 (amended): every fatal configuration error detected by `parseProgramParameters`
(fewer than 3 arguments, a file name rejected by the `.tri` check, a grid size that is
not a power of two, a rejected memory limit, a negative sparseness percentage, an
unknown option) ends the process with `exit(0)`, that is with exit status zero. -/
theorem parser_exits_with_status_zero (atoi : String → Int) (isPow : Nat → Bool)
    (argv : List String) (status : Int)
    (h : parseProgramParameters atoi isPow argv = ParseOutcome.exit status) :
    status = 0 ∧ exitStatus status = 0 := by
  have hs : status = 0 := by
    unfold parseProgramParameters at h
    split at h
    · exact (ParseOutcome.exit.inj h).symm
    · exact parseLoop_exit atoi isPow status _ _ _ (le_refl _) h
  subst hs
  exact ⟨rfl, by decide⟩

/-- C10 (witness): the unknown option `-x`. -/
theorem parser_exits_with_status_zero_witness :
    parseProgramParameters atoiDecimal isPowerOf2 ["svo_builder", "-x", "bunny.tri"]
        = ParseOutcome.exit 0 ∧
      ((0 : Int) = 0 ∧ exitStatus 0 = 0) :=
  ⟨by decide, parser_exits_with_status_zero atoiDecimal isPowerOf2
    ["svo_builder", "-x", "bunny.tri"] 0 (by decide)⟩

/-! ### The checks of `parseProgramParameters` at the boundary -/

/-- C11: the check of the `-l` value is `voxel_memory_limit <= 1` on a `size_t`.  The value
`1` is rejected, although the message printed on rejection reads "Use a value >= 1"; the
value `0` is rejected; the value `2` is accepted; and the negative value `-5` is accepted,
the limit becoming `2^64 - 5`. -/
theorem memory_limit_check_at_boundary :
    parseProgramParameters atoiDecimal isPowerOf2 ["svo_builder", "-l", "1"]
      = ParseOutcome.exit 0 ∧
    parseProgramParameters atoiDecimal isPowerOf2 ["svo_builder", "-l", "0"]
      = ParseOutcome.exit 0 ∧
    parseProgramParameters atoiDecimal isPowerOf2 ["svo_builder", "-l", "2"]
      = ParseOutcome.ok { voxel_memory_limit := 2 } ∧
    atoiDecimal "-5" = -5 ∧
    parseProgramParameters atoiDecimal isPowerOf2 ["svo_builder", "-l", "-5"]
      = ParseOutcome.ok { voxel_memory_limit := 2 ^ 64 - 5 } := by
  decide

/-- C12: the check of the `-f` value is `filename.find(".tri") == string::npos`, so every
name that contains `.tri` anywhere passes: `mesh.tri.bak` and `mesh.tridata` do not end in
`.tri` and are accepted as the input file name. -/
theorem file_name_check_accepts_inner_tri :
    (".tri".toList.isSuffixOf "mesh.tri.bak".toList = false ∧
      find "mesh.tri.bak" ".tri" = some 4 ∧
      parseProgramParameters atoiDecimal isPowerOf2 ["svo_builder", "-f", "mesh.tri.bak"]
        = ParseOutcome.ok { filename := "mesh.tri.bak" }) ∧
    (".tri".toList.isSuffixOf "mesh.tridata".toList = false ∧
      find "mesh.tridata" ".tri" = some 4 ∧
      parseProgramParameters atoiDecimal isPowerOf2 ["svo_builder", "-f", "mesh.tridata"]
        = ParseOutcome.ok { filename := "mesh.tridata" }) := by
  decide

/-- C14: without `-s` and `-l` the run keeps the initial values of the globals, grid size
`1024` and memory limit `2048`, and not the `512` and `1024` of the help text. -/
theorem defaults_differ_from_help_text :
    parseProgramParameters atoiDecimal isPowerOf2 ["svo_builder", "-f", "bunny.tri"]
      = ParseOutcome.ok
          { filename := "bunny.tri", gridsize := 1024, voxel_memory_limit := 2048 } ∧
    (1024 : Nat) ≠ 512 ∧ (2048 : Nat) ≠ 1024 := by
  decide

/-- C17: with `argc = 3` and a value-taking option as the last argument, the parser reads
`argv[argc]`: for `svo_builder -v -f` the option `-f` is handled at index 2 and its value
is read at index 3, the terminating null pointer; likewise for `-s`, `-l`, `-d`, `-c`. -/
theorem value_option_last_reads_past_end :
    ["svo_builder", "-v", "-f"].length = 3 ∧
    parseProgramParameters atoiDecimal isPowerOf2 ["svo_builder", "-v", "-f"]
      = ParseOutcome.nullArgument ∧
    parseProgramParameters atoiDecimal isPowerOf2 ["svo_builder", "-v", "-s"]
      = ParseOutcome.nullArgument ∧
    parseProgramParameters atoiDecimal isPowerOf2 ["svo_builder", "-v", "-l"]
      = ParseOutcome.nullArgument ∧
    parseProgramParameters atoiDecimal isPowerOf2 ["svo_builder", "-v", "-d"]
      = ParseOutcome.nullArgument ∧
    parseProgramParameters atoiDecimal isPowerOf2 ["svo_builder", "-v", "-c"]
      = ParseOutcome.nullArgument := by
  decide

/-! ### Partition bounds without wrap-around -/

theorem cube_le_of_le (gridsize : Nat) (h : gridsize ≤ 2 ^ 21) : gridsize ^ 3 < 2 ^ 64 :=
  lt_of_le_of_lt (Nat.pow_le_pow_left h 3) (by norm_num)

/-- C13: for every power-of-two `gridsize <= 2^21`, every `n_partitions >= 1` and every
`i < n_partitions`, the driver's 64-bit computations `gridsize * gridsize * gridsize`,
`morton_part`, `i * morton_part` and `(i + 1) * morton_part` equal their mathematical
values, and both partition bounds lie in `[0, gridsize^3]`. -/
theorem partition_bounds_exact (gridsize n_partitions i : Nat)
    (_hpow : ∃ k, gridsize = 2 ^ k) (hmax : gridsize ≤ 2 ^ 21) (_hn : 1 ≤ n_partitions)
    (hi : i < n_partitions) :
    wrap64 (wrap64 (gridsize * gridsize) * gridsize) = gridsize ^ 3 ∧
      mortonPart gridsize n_partitions = gridsize ^ 3 / n_partitions ∧
      partStart (mortonPart gridsize n_partitions) i = i * (gridsize ^ 3 / n_partitions) ∧
      partEnd (mortonPart gridsize n_partitions) i
        = (i + 1) * (gridsize ^ 3 / n_partitions) ∧
      partStart (mortonPart gridsize n_partitions) i ≤ gridsize ^ 3 ∧
      partEnd (mortonPart gridsize n_partitions) i ≤ gridsize ^ 3 := by
  have hfit := cube_le_of_le gridsize hmax
  have hmp := mortonPart_of_fit gridsize n_partitions hfit
  have hprod : wrap64 (wrap64 (gridsize * gridsize) * gridsize) = gridsize ^ 3 := by
    have h1 := mortonPart_of_fit gridsize 1 hfit
    unfold mortonPart at h1
    simpa using h1
  have hs := partStart_eq gridsize n_partitions i hi
  have he := partEnd_eq gridsize n_partitions i hi
  rw [hmp] at hs he
  refine ⟨hprod, hmp, ?_, ?_, ?_, ?_⟩
  · rw [hmp]; exact hs
  · rw [hmp]; exact he
  · rw [hmp, hs]; exact mul_mortonPart_le _ n_partitions i hi.le
  · rw [hmp, he]; exact mul_mortonPart_le _ n_partitions (i + 1) hi

/-- C13 (witness): the largest supported grid, `2^21` per axis, in 8 partitions, at the
last partition. -/
theorem partition_bounds_exact_witness :
    (∃ k, (2 : Nat) ^ 21 = 2 ^ k) ∧ (2 : Nat) ^ 21 ≤ 2 ^ 21 ∧ 1 ≤ 8 ∧ 7 < 8 ∧
      (wrap64 (wrap64 (2 ^ 21 * 2 ^ 21) * 2 ^ 21) = (2 ^ 21) ^ 3 ∧
        mortonPart (2 ^ 21) 8 = (2 ^ 21) ^ 3 / 8 ∧
        partStart (mortonPart (2 ^ 21) 8) 7 = 7 * ((2 ^ 21) ^ 3 / 8) ∧
        partEnd (mortonPart (2 ^ 21) 8) 7 = (7 + 1) * ((2 ^ 21) ^ 3 / 8) ∧
        partStart (mortonPart (2 ^ 21) 8) 7 ≤ (2 ^ 21) ^ 3 ∧
        partEnd (mortonPart (2 ^ 21) 8) 7 ≤ (2 ^ 21) ^ 3) :=
  ⟨⟨21, rfl⟩, le_refl _, by decide, by decide,
    partition_bounds_exact (2 ^ 21) 8 7 ⟨21, rfl⟩ (le_refl _) (by decide) (by decide)⟩

/-! ### The slices of the fill pass -/

theorem toInt32_natCast (n : Nat) (h : n < 2 ^ 31) : toInt32 n = (n : Int) := by
  unfold toInt32
  have h1 : n % 2 ^ 32 = n := Nat.mod_eq_of_lt (by omega)
  rw [h1, if_pos h]

theorem fill_length (n k : Nat) (hk : k ≤ n) (hn : n < 2 ^ 31) :
    wrap32 (wrap32 n + 2 ^ 32 - toUInt (k : Int)) = n - k := by
  rw [toUInt_natCast k (by omega)]
  unfold wrap32
  omega

theorem fillLoop_consecutive (t : TripInfo) (nfilled : Nat → Nat) :
    ∀ (is : List Nat) (k : Nat), k < 2 ^ 31 →
      (∀ i ∈ is, t.part_tricounts i ≠ 0 → k ≤ nfilled i ∧ nfilled i < 2 ^ 31) →
      List.Pairwise
        (fun i j => t.part_tricounts i ≠ 0 → t.part_tricounts j ≠ 0 → nfilled i ≤ nfilled j)
        is →
      ConsecutiveSlices (k : Int) (fillSlices (Cuda.fillLoop t nfilled is (k : Int)))
        ((lastCount t nfilled is k : Nat) : Int) := by
  intro is
  induction is with
  | nil => intro k _ _ _; simp [Cuda.fillLoop, fillSlices, lastCount, ConsecutiveSlices]
  | cons i is ih =>
    intro k hk hbound hpair
    have hrest : ∀ j ∈ is, t.part_tricounts j ≠ 0 → k ≤ nfilled j ∧ nfilled j < 2 ^ 31 :=
      fun j hj => hbound j (List.mem_cons_of_mem i hj)
    by_cases h0 : t.part_tricounts i = 0
    · simp only [Cuda.fillLoop, lastCount, if_pos h0]
      exact ih k hk hrest (List.Pairwise.of_cons hpair)
    · have hi := hbound i (List.mem_cons_self i is) h0
      simp only [Cuda.fillLoop, lastCount, if_neg h0, fillSlices, ConsecutiveSlices]
      refine ⟨trivial, ?_⟩
      rw [fill_length (nfilled i) k hi.1 hi.2, toInt32_natCast (nfilled i) hi.2]
      have hsum : (k : Int) + ((nfilled i - k : Nat) : Int) = ((nfilled i : Nat) : Int) := by
        omega
      rw [hsum]
      refine ih (nfilled i) hi.2 (fun j hj hj0 => ?_) (List.Pairwise.of_cons hpair)
      exact ⟨List.rel_of_pairwise_cons hpair hj h0 hj0, (hrest j hj hj0).2⟩

/-- C15 (counterexample): two processed partitions with the cumulative counts `2^31` and
`2^31 + 1`, a non-decreasing vector of `uint`.  The first slice is `(0, 2^31)`; the `int`
variable `prev_idx` then holds `-2^31`, and the second slice is handed over as
`(-2^31, 1)`: its offset is not `0 + 2^31`. -/
theorem fill_offset_negative_at_int_limit :
    (∀ j, j < sampleTrip.n_partitions → ∀ i, i < j →
        (fun i => 2 ^ 31 + i) i ≤ (fun i => 2 ^ 31 + i) j) ∧
    (∀ i, i < sampleTrip.n_partitions → (fun i => 2 ^ 31 + i) i < 2 ^ 32) ∧
    Cuda.fillLoop sampleTrip (fun i => 2 ^ 31 + i) (List.range sampleTrip.n_partitions) 0
      = [Event.voxelizeFill 0 0 (2 ^ 31), Event.voxelizeFill 1 (-2 ^ 31) 1] ∧
    ¬ ConsecutiveSlices 0
        (fillSlices (Cuda.fillLoop sampleTrip (fun i => 2 ^ 31 + i)
          (List.range sampleTrip.n_partitions) 0))
        ((lastCount sampleTrip (fun i => 2 ^ 31 + i)
          (List.range sampleTrip.n_partitions) 0 : Nat) : Int) := by
  have hloop : Cuda.fillLoop sampleTrip (fun i => 2 ^ 31 + i)
      (List.range sampleTrip.n_partitions) 0
      = [Event.voxelizeFill 0 0 (2 ^ 31), Event.voxelizeFill 1 (-2 ^ 31) 1] := by decide
  refine ⟨by decide, by decide, hloop, ?_⟩
  rw [hloop]
  intro h
  have h2 := h.2.1
  revert h2
  decide

/-- C15 (amended): in the fill pass of the CUDA driver, for every cumulative count vector
`nfilled` that is non-decreasing over the processed partitions and whose entries there
are below `2^31` (so that the `int` variable `prev_idx` holds them), the pairs
`(prev_idx, nfilled[i] - prev_idx)` handed to `voxelize_schwarz_method` in loop order are
consecutive slices: the first offset is 0, each offset is the previous offset plus the
previous length, and together they cover exactly `[0, nfilled[last processed])`. -/
theorem fill_slices_consecutive (t : TripInfo) (nfilled : Nat → Nat)
    (hmono : ∀ j, j < t.n_partitions → ∀ i, i < j →
      t.part_tricounts i ≠ 0 → t.part_tricounts j ≠ 0 → nfilled i ≤ nfilled j)
    (hsmall : ∀ i, i < t.n_partitions → t.part_tricounts i ≠ 0 → nfilled i < 2 ^ 31) :
    ConsecutiveSlices 0
      (fillSlices (Cuda.fillLoop t nfilled (List.range t.n_partitions) 0))
      ((lastCount t nfilled (List.range t.n_partitions) 0 : Nat) : Int) := by
  have h := fillLoop_consecutive t nfilled (List.range t.n_partitions) 0 (by norm_num)
    (fun i hi h0 => ⟨Nat.zero_le _, hsmall i (List.mem_range.mp hi) h0⟩)
    (List.Pairwise.imp_of_mem
      (fun {a b} _ hb hab ha0 hb0 => hmono b (List.mem_range.mp hb) a hab ha0 hb0)
      (List.pairwise_lt_range t.n_partitions))
  simpa using h

/-- C15 (witness): two processed partitions with the cumulative counts 3 and 7; the
slices are `(0, 3)` and `(3, 4)` and cover `[0, 7)`. -/
theorem fill_slices_consecutive_witness :
    (∀ j, j < sampleTrip.n_partitions → ∀ i, i < j →
        sampleTrip.part_tricounts i ≠ 0 → sampleTrip.part_tricounts j ≠ 0 →
        (fun i => 3 + 4 * i) i ≤ (fun i => 3 + 4 * i) j) ∧
    fillSlices (Cuda.fillLoop sampleTrip (fun i => 3 + 4 * i)
        (List.range sampleTrip.n_partitions) 0) = [(0, 3), (3, 4)] ∧
    lastCount sampleTrip (fun i => 3 + 4 * i) (List.range sampleTrip.n_partitions) 0 = 7 ∧
    ConsecutiveSlices 0
      (fillSlices (Cuda.fillLoop sampleTrip (fun i => 3 + 4 * i)
        (List.range sampleTrip.n_partitions) 0))
      ((lastCount sampleTrip (fun i => 3 + 4 * i)
        (List.range sampleTrip.n_partitions) 0 : Nat) : Int) :=
  ⟨by decide, by decide, by decide,
    fill_slices_consecutive sampleTrip (fun i => 3 + 4 * i) (by decide) (by decide)⟩

/-! ### The count handed to `runSVO` -/

/-- C16: the final call is `runSVO(builder, 0, use_data, data, tot_nfilled)` with a `uint`
parameter `data_size`.  For `tot_nfilled = 2^32 + 2` the parameter is `2`: whatever the
rest of the buffer holds, only `data[0]` and `data[1]` are passed to `addVoxel`, and for
`tot_nfilled = 2^32` no code at all. -/
theorem runSVO_count_is_truncated :
    wrap32 (2 ^ 32 + 2) = 2 ∧ wrap32 (2 ^ 32) = 0 ∧
    (∀ rest : List Nat, runSVO true (5 :: 6 :: rest) (wrap32 (2 ^ 32 + 2))
      = ([Event.addVoxel 5, Event.addVoxel 6], Outcome.finished)) ∧
    (∀ data : List Nat, runSVO true data (wrap32 (2 ^ 32)) = ([], Outcome.finished)) := by
  have h2 : wrap32 (2 ^ 32 + 2) = 2 := by decide
  have h0 : wrap32 (2 ^ 32) = 0 := by decide
  refine ⟨h2, h0, ?_, ?_⟩
  · intro rest
    rw [h2]
    cases rest <;> simp [runSVO, addVoxelLoop, toUInt, intIncr]
  · intro data
    rw [h0]
    cases data <;> simp [runSVO, addVoxelLoop]

end SvoBuilder
